import Mathlib

/-!
# timer: a shallow embedding of `timer.cc`

`timer [options] <program_to_time> [program_arguments...]` runs a program as a
child process and reports its elapsed, user and system time and its peak memory.

The embedding follows `src/timer.cc` function by function:

* the option prefix of `main` (lines 115-138) is `classify`;
* the operating-system calls `main` issues are recorded as a list of `Op`, the
  answers of the operating system are the fields of `OS`;
* `print_result_non_interactive`, `normalize` and `print_result_interactive`
  are functions producing the text written to the stream; the precision of
  `long double` is a parameter.
-/

namespace Timer

/-! ## Constants of the source -/

/-- The constant `MICROS_PER_SEC = 1e6`. -/
def MICROS_PER_SEC : Nat := 1000000

/-- The constant `IGNORE_OUTPUT`. -/
def IGNORE_OUTPUT : String := "--ignore-output"

/-- The constant `IGNORE_OUTPUT_SHORT`. -/
def IGNORE_OUTPUT_SHORT : String := "-i"

/-- The constant `NON_INTERACTIVE`. -/
def NON_INTERACTIVE : String := "--non-interactive"

/-- The constant `NON_INTERACTIVE_SHORT`. -/
def NON_INTERACTIVE_SHORT : String := "-n"

/-! ## The argument classifier (`main`, lines 115-138)

An argument vector is the list of its tokens, program name first: `argc` is its
length and the slot `argv[argc]` holds the terminating null pointer. -/

/-- The test `strcmp(argv[i], s) == 0`; the slot `argv[i]` is `none` from the
null terminator on (the source reads a slot only where `argc` says it holds a
token). -/
def strcmp0 (a : Option String) (s : String) : Bool := a == some s

/-- The value of a C++ `bool` used as an `int`. -/
def b2i (b : Bool) : Nat := if b then 1 else 0

/-- The pointer `&argv[k]`, read as the vector it then denotes: the tokens from
index `k` up to the null terminator. It is a pointer into the original vector
only for `k ≤ argc`; beyond that it is `none`. -/
def advance (argv : List String) (k : Nat) : Option (List String) :=
  if k ≤ argv.length then some (argv.drop k) else none

/-- The configuration `main` computes from the option prefix. -/
structure Config where
  /-- The local `ignore`. -/
  ignore : Bool
  /-- The local `non_interactive`. -/
  non_interactive : Bool
  /-- The vector `argv` denotes after the assignment `argv = &argv[k]`: `execvp`
  gets its first token as the file and the whole of it as arguments. -/
  target : List String
  deriving DecidableEq, Repr

/-- The local `ignore` of `main` (lines 122-126). -/
def ignore_flag (argv : List String) : Bool :=
  strcmp0 argv[1]? IGNORE_OUTPUT_SHORT ||
  strcmp0 argv[1]? IGNORE_OUTPUT || (decide (argv.length ≥ 3) && (
  strcmp0 argv[2]? IGNORE_OUTPUT_SHORT ||
  strcmp0 argv[2]? IGNORE_OUTPUT))

/-- The local `non_interactive` of `main` (lines 128-132). -/
def non_interactive_flag (argv : List String) : Bool :=
  strcmp0 argv[1]? NON_INTERACTIVE_SHORT ||
  strcmp0 argv[1]? NON_INTERACTIVE || (decide (argv.length ≥ 3) && (
  strcmp0 argv[2]? NON_INTERACTIVE_SHORT ||
  strcmp0 argv[2]? NON_INTERACTIVE))

/-- Whether the first token is a fused flag (line 134). -/
def fused (argv : List String) : Bool :=
  strcmp0 argv[1]? "-in" || strcmp0 argv[1]? "-ni"

/-- The index `k` of `argv = &argv[k]` (lines 134-138). -/
def skip_index (argv : List String) : Nat :=
  if fused argv then 2
  else 1 + b2i (ignore_flag argv) + b2i (non_interactive_flag argv)

/-- Lines 122-138 of `main`, reached when `argc ≥ 2`: the two flags and the
target vector. The result is `none` when `&argv[k]` would point beyond the null
terminator. -/
def classify (argv : List String) : Option Config :=
  let ignore := ignore_flag argv
  let non_interactive := non_interactive_flag argv
  if fused argv then
    (advance argv 2).map (fun t => ⟨true, true, t⟩)
  else
    (advance argv (1 + b2i ignore + b2i non_interactive)).map
      (fun t => ⟨ignore, non_interactive, t⟩)

/-- Every prefix that gives both flags: the two fused tokens, and each spelling
of one flag followed by each spelling of the other, in both orders. -/
def two_flag_prefixes : List (List String) :=
  [["-in"], ["-ni"],
   ["-i", "-n"], ["-i", "--non-interactive"],
   ["--ignore-output", "-n"], ["--ignore-output", "--non-interactive"],
   ["-n", "-i"], ["-n", "--ignore-output"],
   ["--non-interactive", "-i"], ["--non-interactive", "--ignore-output"]]

/-- The tokens the source recognises as a flag in first position. -/
def flag_tokens : List String :=
  [IGNORE_OUTPUT_SHORT, IGNORE_OUTPUT, NON_INTERACTIVE_SHORT, NON_INTERACTIVE, "-in", "-ni"]

/-! ## Wait status

The macros of `<sys/wait.h>` as Linux/glibc defines them, over the status
`wait3` stores (a non-negative `int`). -/

/-- The macro `WTERMSIG(status)`, `status & 0x7f`. -/
def WTERMSIG (status : Nat) : Nat := status % 128

/-- The macro `WEXITSTATUS(status)`, `(status & 0xff00) >> 8`. -/
def WEXITSTATUS (status : Nat) : Nat := (status / 256) % 256

/-- The macro `WIFEXITED(status)`, `WTERMSIG(status) == 0`. -/
def WIFEXITED (status : Nat) : Bool := WTERMSIG status == 0

/-- The macro `WIFSIGNALED(status)`,
`((signed char) ((status & 0x7f) + 1) >> 1) > 0`: the sum is taken as a signed
byte, and the shift of a signed byte by one is the division by two rounded
down. -/
def WIFSIGNALED (status : Nat) : Bool :=
  let c : Int := ((status % 128 + 1 : Nat) : Int)
  let sc : Int := if c ≥ 128 then c - 256 else c
  decide (sc / 2 > 0)

/-- The status `wait3` stores for a child that called `_exit(code)`. -/
def W_EXITCODE (code : Nat) : Nat := (code % 256) * 256

/-- The constant `EXIT_FAILURE`. -/
def EXIT_FAILURE : Nat := 1

/-- The error number `ENOENT`, no such file or directory. -/
def ENOENT : Nat := 2

/-- The error number `EINVAL`, invalid argument. -/
def EINVAL : Nat := 22

/-- The descriptor `STDOUT_FILENO`. -/
def STDOUT_FILENO : Int := 1

/-! ## Operations and the operating system's answers -/

/-- The operations `main` issues, in the order it issues them. -/
inductive Op where
  /-- Text written to `cout`. -/
  | cout (text : String)
  /-- The call `dup(fd)`. -/
  | dup (fd : Int)
  /-- The call `open(pathname, O_WRONLY)`. -/
  | open_ (pathname : String)
  /-- The call `dup2(oldfd, newfd)`. -/
  | dup2 (oldfd newfd : Int)
  /-- The call `close(fd)`. -/
  | close (fd : Int)
  /-- A clock read, `std::chrono::system_clock::now()`. -/
  | now
  /-- The call `vfork()`. -/
  | vfork
  /-- The call `execvp(argv[0], argv)`; the file is `none` when `argv[0]` is
  the null terminator. -/
  | execvp (file : Option String) (argv : List String)
  /-- The call `perror(msg)`. -/
  | perror (msg : Option String)
  /-- The call `_exit(code)`. -/
  | _exit (code : Nat)
  /-- The call `wait3(&status, 0, &usage)`. -/
  | wait3
  /-- Text written to `cerr`. -/
  | cerr (text : String)
  /-- The call of `print_result_non_interactive` (flag set) or of
  `print_result_interactive` on `cerr` with the four values. -/
  | print_result (non_interactive : Bool) (elapsed user sys mem_max : Nat)
  /-- The call `signal(sig, SIG_DFL)`. -/
  | signal (sig : Nat)
  /-- The call `kill(getpid(), sig)`. -/
  | kill (sig : Nat)
  /-- The call `exit(code)`. -/
  | exit (code : Nat)
  deriving DecidableEq, Repr

/-- The type `timeval`. -/
structure timeval where
  /-- Seconds. -/
  tv_sec : Int
  /-- Microseconds. -/
  tv_usec : Int
  deriving DecidableEq, Repr

/-- The fields of `rusage` the program reads. -/
structure rusage where
  /-- User time. -/
  ru_utime : timeval
  /-- System time. -/
  ru_stime : timeval
  /-- Peak resident set size, in kilobytes. -/
  ru_maxrss : Int
  deriving DecidableEq, Repr

/-- What the operating system answers to the calls of one run. -/
structure OS where
  /-- The value of `dup(STDOUT_FILENO)`. -/
  dup : Int
  /-- The value of `open("/dev/null", O_WRONLY)`. -/
  open_ : Int
  /-- The value of `dup2(fd, STDOUT_FILENO)`. -/
  dup2 : Int
  /-- The value of `close(fd)`. -/
  close : Int
  /-- The clock before process creation, in nanoseconds. -/
  start : Int
  /-- The value `vfork()` has in the parent: the child's process id, or a
  negative value when no child was created; never 0. -/
  vfork : { pid : Int // pid ≠ 0 }
  /-- The error number `execvp` leaves when it returns in the child; `none`
  when it does not return. -/
  execvp : Option Nat
  /-- The error number `perror(argv[0])` leaves in the child when it changes
  `errno`, as a library call may: the C library of GNU sets `EINVAL` when the
  standard error is not open for both reading and writing (a pipe, a file
  opened for writing); `none` when it leaves `errno` as `execvp` set it. -/
  perror_errno : Option Nat
  /-- The status the child ends with when `execvp` does not return: that of the
  target program once it has replaced the image. -/
  target_status : Nat
  /-- The value of `wait3(&status, 0, &usage)`. -/
  wait3 : Int
  /-- The resource usage `wait3` stores. -/
  usage : rusage
  /-- The clock after `wait3` has returned, in nanoseconds. -/
  end_ : Int
  /-- The value of `dup2(fd_stdout, STDOUT_FILENO)`. -/
  restore_dup2 : Int
  /-- The value of `close(fd_stdout)`. -/
  restore_close : Int
  /-- Whether `signal(exitonsig, SIG_DFL)` answers `SIG_ERR`, as it does for
  a signal whose disposition cannot be changed. -/
  signal_err : Bool
  /-- Whether `kill(getpid(), exitonsig)` returns, the signal being blocked or
  ignored, rather than ending the process. -/
  kill_returns : Bool
  deriving DecidableEq, Repr

/-- A piece of straight-line code run by one process: the operations it issued
and the value it goes on with, `none` once the process has ended. -/
structure Proc (α : Type) where
  /-- The operations issued, in order. -/
  trace : List Op
  /-- The value the code continues with. -/
  value : Option α
  deriving DecidableEq, Repr

/-- Sequencing: the second piece runs only if the first one goes on. -/
def Proc.bind {α β : Type} (p : Proc α) (f : α → Proc β) : Proc β :=
  match p.value with
  | none => ⟨p.trace, none⟩
  | some a => ⟨p.trace ++ (f a).trace, (f a).value⟩

instance : Monad Proc where
  pure a := ⟨[], some a⟩
  bind := Proc.bind

/-- Issue an operation that returns, with its answer. -/
def call {α : Type} (op : Op) (answer : α) : Proc α := ⟨[op], some answer⟩

/-- Issue an operation that does not return. -/
def halt {α : Type} (op : Op) : Proc α := ⟨[op], none⟩

/-! ## The program -/

/-- The text `usage` writes to `cout`; each `endl` is a newline. -/
def usage_text : String :=
  "\n" ++ " Usage:" ++ "\n" ++ "\n"
  ++ "     timer [options] <program_to_time> [program_arguments...]"
  ++ "\n"
  ++ "\n"
  ++ " Outputs total elapsed, user, system and CPU (system+user) times,"
  ++ "\n"
  ++ " and percentage of time spent in CPU."
  ++ "\n"
  ++ " Time units are seconds on interactive (default) mode, and microseconds"
  ++ "\n"
  ++ " on non-interactive mode."
  ++ "\n"
  ++ "\n"
  ++ " Options:"
  ++ "\n"
  ++ "\n"
  ++ "     -i, --ignore-output   : Redirects program output to /dev/null"
  ++ "\n"
  ++ "     -n, --non-interactive : Outputs the timing data in json format and microseconds."
  ++ "\n"
  ++ "                             Format is \x7b elapsed: <v>, user: <v>, sys: <v> \x7d."
  ++ "\n"
  ++ "                             Note that there is no trailing endline and both CPU%"
  ++ "\n"
  ++ "                             and CPU time values are not outputted because they"
  ++ "\n"
  ++ "                             are derivate calculations."
  ++ "\n" ++ "\n"

/-- The function `usage`: print the usage text, then `exit(0)`. -/
def usage {α : Type} : Proc α := do
  call (Op.cout usage_text) ()
  halt (Op.exit 0)

/-- The function `error`: `perror(msg)`, then `exit(1)`. -/
def error {α : Type} (msg : String) : Proc α := do
  call (Op.perror (some msg)) ()
  halt (Op.exit 1)

/-- The function `_close`; `answer` is what `close` returns. -/
def _close (answer : Int) (fd : Int) : Proc Unit := do
  let r ← call (Op.close fd) answer
  if r < 0 then error "close"

/-- The function `_open`; `answer` is what `open` returns. -/
def _open (answer : Int) (pathname : String) : Proc Int := do
  let r ← call (Op.open_ pathname) answer
  if r < 0 then error "open"
  return r

/-- The function `_dup2`; `answer` is what `dup2` returns. -/
def _dup2 (answer : Int) (oldfd newfd : Int) : Proc Int := do
  let r ← call (Op.dup2 oldfd newfd) answer
  if r < 0 then error "dup2"
  return r

/-- The function `_dup`; `answer` is what `dup` returns. -/
def _dup (answer : Int) (fd : Int) : Proc Int := do
  let r ← call (Op.dup fd) answer
  if r < 0 then error "dup"
  return r

/-- A `long` or `long long` value converted to `unsigned long long`. -/
def to_ull (x : Int) : Nat := (x % 2 ^ 64).toNat

/-- Lines 145-149 of `main`, the redirection of the standard output: keep a
copy of the descriptor, open `/dev/null`, put it in place of the standard
output and close the temporary descriptor. The value is `fd_stdout`. -/
def redirect (os : OS) : Proc Int := do
  let fd_stdout ← _dup os.dup STDOUT_FILENO
  let fd ← _open os.open_ "/dev/null"
  let _ ← _dup2 os.dup2 fd STDOUT_FILENO
  _close os.close fd
  return fd_stdout

/-- Lines 184-185 of `main`: put the saved descriptor back and close it. -/
def restore (os : OS) (fd_stdout : Int) : Proc Unit := do
  let _ ← _dup2 os.restore_dup2 fd_stdout STDOUT_FILENO
  _close os.restore_close fd_stdout

/-- Lines 115-152 of `main`: the usage guard, the classifier, the redirection
of the standard output when `ignore` is set, and the start clock read. The
value is the configuration, `fd_stdout` and `start`; `fd_stdout` is read later
only when `ignore` is set, and stands as 0 otherwise. -/
def before_vfork (argv : List String) (os : OS) : Proc (Config × Int × Int) := do
  if argv.length < 2 then usage
  match classify argv with
  | none => ⟨[], none⟩
  | some cfg =>
    let fd_stdout ← if cfg.ignore then redirect os else pure 0
    let start ← call Op.now os.start
    return (cfg, fd_stdout, start)

/-- The exit code of line 158, `errno == ENOENT ? 127 : 126`. -/
def exec_failure_code (errno : Nat) : Nat := if errno = ENOENT then 127 else 126

/-- The value `errno` has at line 158, where the child tests it: `execvp` set
it at line 156 and `perror(argv[0])` ran at line 157, in between. -/
def errno_after_perror (os : OS) (errno : Nat) : Nat := os.perror_errno.getD errno

/-- The status `wait3` stores, the process having no other child than the one
of line 154: that of the child's `_exit` when `execvp` returned in the child,
that of the target program otherwise. -/
def wait_status (os : OS) : Nat :=
  match os.execvp with
  | some errno => W_EXITCODE (exec_failure_code (errno_after_perror os errno))
  | none => os.target_status

/-- Lines 161-189 of `main`, the branch `pid > 0`: wait for the child, read
the end clock, classify the status, compute the four values, restore the
standard output and print the result. The value is `exitonsig` and `status`. -/
def parent_branch (cfg : Config) (fd_stdout start : Int) (os : OS) : Proc (Nat × Nat) := do
  let wait ← call Op.wait3 os.wait3
  let end_ ← call Op.now os.end_
  if wait < 0 then error "waitpid"
  let status := wait_status os
  let exitonsig := if WIFSIGNALED status then WTERMSIG status else 0
  if !WIFEXITED status then
    call (Op.cerr "Command terminated abnormally.\n") ()
  let elapsed := to_ull ((end_ - start).tdiv 1000)
  let usertime := os.usage.ru_utime
  let systime := os.usage.ru_stime
  let user := to_ull (usertime.tv_sec * MICROS_PER_SEC + usertime.tv_usec)
  let sys := to_ull (systime.tv_sec * MICROS_PER_SEC + systime.tv_usec)
  let mem_max := to_ull os.usage.ru_maxrss
  if cfg.ignore then restore os fd_stdout
  call (Op.print_result cfg.non_interactive elapsed user sys mem_max) ()
  return (exitonsig, status)

/-- Lines 156-158 of `main`, the branch `pid == 0` run by the child: replace
the image, and when that fails report it with `perror` and then test `errno` to
leave with 127 or 126. The test reads `errno` after `perror` has run, so the
answer of `perror` is the value of `errno` it leaves. With an empty target the
file name is the null pointer, for which `execvp` has no defined answer. -/
def child_branch {α : Type} (cfg : Config) (os : OS) : Proc α :=
  match os.execvp with
  | none => halt (Op.execvp cfg.target.head? cfg.target)
  | some errno => do
    call (Op.execvp cfg.target.head? cfg.target) ()
    let errno ← call (Op.perror cfg.target.head?) (errno_after_perror os errno)
    halt (Op._exit (exec_failure_code errno))

/-- Lines 155-191 of `main`, run with the value `pid` of `vfork()`: 0 in the
child, the answer of the operating system in the parent. The value is
`exitonsig` and `status`, with which the parent goes on to line 193. -/
def from_vfork (cfg : Config) (fd_stdout start : Int) (os : OS) (pid : Int) :
    Proc (Nat × Nat) :=
  if pid = 0 then child_branch cfg os
  else if pid > 0 then parent_branch cfg fd_stdout start os
  else error "fork"

/-- Lines 193-199 of `main`, the exit relay. -/
def relay (os : OS) (exitonsig status : Nat) : Proc Unit := do
  if exitonsig ≠ 0 then
    let sig_err ← call (Op.signal exitonsig) os.signal_err
    if sig_err then
      call (Op.perror (some "signal")) ()
    else if os.kill_returns then
      call (Op.kill exitonsig) ()
    else
      halt (Op.kill exitonsig)
  halt (Op.exit (if WIFEXITED status then WEXITSTATUS status else EXIT_FAILURE))

/-- Lines 115-191 of `main` in the parent, up to the exit relay. -/
def before_relay (argv : List String) (os : OS) : Proc (Nat × Nat) := do
  let (cfg, fd_stdout, start) ← before_vfork argv os
  let pid ← call Op.vfork os.vfork.val
  from_vfork cfg fd_stdout start os pid

/-- The function `main` as the parent process runs it. -/
def main (argv : List String) (os : OS) : Proc Unit := do
  let (exitonsig, status) ← before_relay argv os
  relay os exitonsig status

/-- The operations of the child process: lines 155-159 of `main`, run with
`pid = 0` once the parent has created the child. -/
def child (argv : List String) (os : OS) : List Op :=
  match (before_vfork argv os).value with
  | some (cfg, fd_stdout, start) =>
    if os.vfork.val > 0 then (from_vfork cfg fd_stdout start os 0).trace else []
  | none => []

/-- An operating system on which every call succeeds and the target program
exits with code 0. -/
def os_fine : OS where
  dup := 3
  open_ := 4
  dup2 := 1
  close := 0
  start := 1000000
  vfork := ⟨4242, by decide⟩
  execvp := none
  perror_errno := none
  target_status := 0
  wait3 := 4242
  usage := ⟨⟨0, 1500⟩, ⟨0, 500⟩, 2048⟩
  end_ := 3500000
  restore_dup2 := 1
  restore_close := 0
  signal_err := false
  kill_returns := false

/-! ## Pieces of the trace -/

/-- The operations of a redirection that succeeds. -/
def setup_ops (os : OS) : List Op :=
  [Op.dup STDOUT_FILENO, Op.open_ "/dev/null", Op.dup2 os.open_ STDOUT_FILENO,
   Op.close os.open_]

/-- The operations of a restore that succeeds. -/
def restore_ops (fd_stdout : Int) : List Op :=
  [Op.dup2 fd_stdout STDOUT_FILENO, Op.close fd_stdout]

/-- Whether an operation is one of the output redirector. -/
def is_redirector : Op → Bool
  | Op.dup _ => true
  | Op.open_ _ => true
  | Op.dup2 _ _ => true
  | Op.close _ => true
  | _ => false

/-- The value `exitonsig` has after lines 166-167. -/
def exitonsig_of (status : Nat) : Nat := if WIFSIGNALED status then WTERMSIG status else 0

/-- The warning of lines 168-169. -/
def warning_ops (status : Nat) : List Op :=
  if WIFEXITED status then [] else [Op.cerr "Command terminated abnormally.\n"]

/-- The call of the print function at lines 188-189, with the values of lines
171-180. -/
def print_op (cfg : Config) (start : Int) (os : OS) : Op :=
  Op.print_result cfg.non_interactive
    (to_ull ((os.end_ - start).tdiv 1000))
    (to_ull (os.usage.ru_utime.tv_sec * MICROS_PER_SEC + os.usage.ru_utime.tv_usec))
    (to_ull (os.usage.ru_stime.tv_sec * MICROS_PER_SEC + os.usage.ru_stime.tv_usec))
    (to_ull os.usage.ru_maxrss)

/-- An operating system on which the target program is killed by signal 9
(`SIGKILL`), whose disposition cannot be changed. -/
def os_killed : OS := { os_fine with target_status := 9, signal_err := true }

/-- An operating system on which no program of the name given is found, so that
`execvp` returns with `ENOENT`, and on which the standard error is not open for
reading (`timer nonesuch 2>log`), so that `perror` leaves `EINVAL` in `errno`. -/
def os_stderr_write_only : OS :=
  { os_fine with execvp := some ENOENT, perror_errno := some EINVAL }

/-! ## The metrics formatter

An output stream is the text written to it so far; `o << x` appends the
rendering of `x`. -/

/-- The rendering `o << v` of an `unsigned long long` on a stream in its
initial state: the decimal digits of `v`. -/
def put_ull (o : String) (v : Nat) : String := o ++ Nat.repr v

/-- The function `print_result_non_interactive`. -/
def print_result_non_interactive (o : String) (elapsed user sys mem_max : Nat) : String :=
  put_ull (put_ull (put_ull (put_ull (o
    ++ "\x7b \"elapsed\": ") elapsed ++ ","
    ++ " \"user\": ") user ++ ","
    ++ " \"sys\": ") sys ++ ","
    ++ " \"mem_max\": ") mem_max ++ " \x7d"

/-- The number a text of decimal digits denotes. -/
def decimal_value (s : List Char) : Nat :=
  s.foldl (fun a c => 10 * a + (c.toNat - 48)) 0

/-- The non-interactive report as the specification writes it, with the four
numbers already rendered. -/
def non_interactive_format (E U S M : String) : String :=
  "\x7b \"elapsed\": " ++ E ++ ", \"user\": " ++ U ++ ", \"sys\": " ++ S ++
    ", \"mem_max\": " ++ M ++ " \x7d"

/-! ## Interactive report: `long double` and its rendering

The type `long double` is a binary floating-point format; the number `p` of
bits of its significand (`LDBL_MANT_DIG`) is 64 on x86-64, 53 where
`long double` is `double`, and 113 where it is the quadruple format. All values
the program computes from `unsigned long long` counts stay far inside the
exponent range of each of these formats, so a value is the rational number it
denotes, and an arithmetic operation or a conversion gives the exact result
rounded to the nearest value with a significand of `p` bits, ties to even. -/

/-- The number of times `n` can be divided by `b` before it drops below `b`:
for `n ≥ 1` and `b ≥ 2` the integer `r` with `b ^ r ≤ n < b ^ (r + 1)`. -/
def flog_aux (b : Nat) : Nat → Nat → Nat
  | 0, _ => 0
  | fuel + 1, n => if n < b then 0 else flog_aux b fuel (n / b) + 1

/-- The integer logarithm of `n ≥ 1` to base `b`, rounded down. -/
def flog (b n : Nat) : Nat := flog_aux b n n

/-- The exponent of a positive rational `q` to base `b`: the integer `e` with
`b ^ e ≤ q < b ^ (e + 1)`. -/
def ilog (b : Nat) (q : ℚ) : ℤ :=
  let e0 : ℤ := (flog b q.num.natAbs : ℤ) - (flog b q.den : ℤ)
  if (b : ℚ) ^ e0 ≤ q then e0 else e0 - 1

/-- Rounding of a rational to the nearest integer, ties to the even one. -/
def round_even (q : ℚ) : ℤ :=
  let f := ⌊q⌋
  if q - f < 1 / 2 then f
  else if 1 / 2 < q - f then f + 1
  else if f % 2 = 0 then f else f + 1

/-- Rounding of an exact result to `long double`: to the nearest value with a
significand of `p` bits, ties to even. -/
def fl (p : Nat) (q : ℚ) : ℚ :=
  if q = 0 then 0
  else
    let e := ilog 2 |q|
    let ulp : ℚ := 2 ^ (e + 1 - (p : ℤ))
    (if q < 0 then -1 else 1) * (round_even (|q| / ulp) : ℚ) * ulp

/-- The function `round` of `<cmath>` on `long double`: to the nearest integer,
ties away from zero; the result is exact. -/
def roundl (x : ℚ) : ℚ :=
  if 0 ≤ x then (⌊x + 1 / 2⌋ : ℚ) else -(⌊-x + 1 / 2⌋ : ℚ)

/-- The constant `DECIMAL_PLACES_ROUNDER = 1e3`, exactly a `long double`. -/
def DECIMAL_PLACES_ROUNDER : ℚ := 1000

/-- The function `normalize`: `round(n*DECIMAL_PLACES_ROUNDER)/DECIMAL_PLACES_ROUNDER`,
the product and the quotient each rounded to `long double`. -/
def normalize (p : Nat) (n : ℚ) : ℚ :=
  fl p (roundl (fl p (n * DECIMAL_PLACES_ROUNDER)) / DECIMAL_PLACES_ROUNDER)

/-- The `k` low decimal digits of `n`, most significant first. -/
def digits_fixed : Nat → Nat → List Char
  | 0, _ => []
  | k + 1, n => digits_fixed k (n / 10) ++ [Nat.digitChar (n % 10)]

/-- Removal of the trailing zeros of a fraction. -/
def strip_zeros (l : List Char) : List Char :=
  (l.reverse.dropWhile (fun c => c == '0')).reverse

/-- A positive value rounded to six significant decimal digits, ties to even:
the pair `(d, X)` with `10 ^ 5 ≤ d < 10 ^ 6` that stands for `d * 10 ^ (X - 5)`. -/
def sci6 (v : ℚ) : Nat × ℤ :=
  let X := ilog 10 v
  let d := (round_even (v / (10 : ℚ) ^ (X - 5))).toNat
  if d = 10 ^ 6 then (10 ^ 5, X + 1) else (d, X)

/-- The value six significant digits stand for. -/
def sci6_value (v : ℚ) : ℚ := ((sci6 v).1 : ℚ) * (10 : ℚ) ^ ((sci6 v).2 - 5)

/-- The text of `o << v` for a `long double` on a stream in its initial state
(no `fixed`, no `scientific`, precision 6), which is that of the conversion
`%.6Lg`: six significant digits; with decimal exponent `X`, fixed notation
with `5 - X` decimals when `-4 ≤ X < 6` and exponent notation otherwise;
trailing zeros of the fraction removed, and the point with them when nothing
is left. -/
def fmt_g6 (v : ℚ) : String :=
  if v = 0 then "0"
  else
    let d := (sci6 |v|).1
    let X := (sci6 |v|).2
    let sign := if v < 0 then "-" else ""
    if -4 ≤ X ∧ X < 6 then
      let k := (5 - X).toNat
      let frac := strip_zeros (digits_fixed k (d % 10 ^ k))
      sign ++ Nat.repr (d / 10 ^ k) ++ (if frac = [] then "" else "." ++ frac.asString)
    else
      let frac := strip_zeros (digits_fixed 5 (d % 10 ^ 5))
      sign ++ Nat.repr (d / 10 ^ 5) ++ (if frac = [] then "" else "." ++ frac.asString)
        ++ "e" ++ (if X < 0 then "-" else "+")
        ++ (if X.natAbs < 10 then "0" else "") ++ Nat.repr X.natAbs

/-- The rendering `o << v` of a `long double`. -/
def put_ld (o : String) (v : ℚ) : String := o ++ fmt_g6 v

/-- The number a text `digits` or `digits.digits` denotes. -/
def denote (s : List Char) : ℚ :=
  let ip := s.takeWhile (fun c => c != '.')
  let fp := (s.dropWhile (fun c => c != '.')).drop 1
  (decimal_value ip : ℚ) + (decimal_value fp : ℚ) / (10 : ℚ) ^ fp.length

/-- The function `print_result_interactive`, for `elapsed > 0`; with
`elapsed = 0` the percentage is a division by zero, whose result is no number,
and the text is left undetermined (`none`). The constants `MICROS_PER_SEC` and
`100.0L` are exactly a `long double`; the conversion of an
`unsigned long long` rounds like any other operation. -/
def print_result_interactive (p : Nat) (o : String) (elapsed user sys mem_max : Nat) :
    Option String :=
  if elapsed = 0 then none
  else
    let elapsed_d := fl p (fl p elapsed / MICROS_PER_SEC)
    let user_d := fl p (fl p user / MICROS_PER_SEC)
    let sys_d := fl p (fl p sys / MICROS_PER_SEC)
    let cpu := fl p (user_d + sys_d)
    let cpu_per := fl p (fl p (100 * cpu) / elapsed_d)
    some (put_ull (put_ld (put_ld (put_ld (put_ld (put_ld (o
      ++ "CPU:     ") (normalize p cpu) ++ " s (")
                      (normalize p cpu_per) ++ " %) " ++ "\n"
      ++ "user:    ") (normalize p user_d) ++ " s" ++ "\n"
      ++ "sys:     ") (normalize p sys_d) ++ " s" ++ "\n"
      ++ "elapsed: ") (normalize p elapsed_d) ++ " s" ++ "\n"
      ++ "mem_max: ") mem_max ++ " KB" ++ "\n")

/-- The locals `elapsed_d`, `user_d`, `sys_d` of `print_result_interactive`:
`(long double)(v)/MICROS_PER_SEC`. -/
def seconds (p v : Nat) : ℚ := fl p (fl p v / MICROS_PER_SEC)

/-- The local `cpu` of `print_result_interactive`. -/
def cpu_seconds (p user sys : Nat) : ℚ := fl p (seconds p user + seconds p sys)

/-- The local `cpu_per` of `print_result_interactive`. -/
def cpu_percent (p elapsed user sys : Nat) : ℚ :=
  fl p (fl p (100 * cpu_seconds p user sys) / seconds p elapsed)

/-- The integer `normalize` gets from `round` for a value that is not negative:
the product by 1000, rounded to `long double` and then to the nearest integer,
ties away from zero. -/
def milli (p : Nat) (x : ℚ) : Nat := ⌊fl p (x * 1000) + 1 / 2⌋.toNat

/-- The rounding to three decimal places as the specification states it,
`round(1000 * x) / 1000` over exact rationals, ties away from zero. -/
def normalize_exact (x : ℚ) : ℚ := roundl (x * 1000) / 1000

/-- The interactive report as the specification writes it, with the six numbers
already rendered. -/
def interactive_format (cpu cpu_per user sys elapsed mem_max : String) : String :=
  "CPU:     " ++ cpu ++ " s (" ++ cpu_per ++ " %) \n" ++
  "user:    " ++ user ++ " s\n" ++
  "sys:     " ++ sys ++ " s\n" ++
  "elapsed: " ++ elapsed ++ " s\n" ++
  "mem_max: " ++ mem_max ++ " KB\n"

/-! ## Unfolding lemmas -/

theorem bind_def {α β : Type} (p : Proc α) (f : α → Proc β) : (p >>= f) = Proc.bind p f := rfl

theorem bind_call {α β : Type} (op : Op) (a : α) (f : α → Proc β) :
    Proc.bind (call op a) f = ⟨op :: (f a).trace, (f a).value⟩ := rfl

theorem bind_none {α β : Type} (t : List Op) (f : α → Proc β) :
    Proc.bind ⟨t, none⟩ f = ⟨t, none⟩ := rfl

theorem bind_some {α β : Type} (t : List Op) (a : α) (f : α → Proc β) :
    Proc.bind ⟨t, some a⟩ f = ⟨t ++ (f a).trace, (f a).value⟩ := rfl

theorem bind_ite {α β : Type} (c : Prop) [Decidable c] (p q : Proc α) (f : α → Proc β) :
    Proc.bind (if c then p else q) f = if c then Proc.bind p f else Proc.bind q f := by
  split <;> rfl

theorem pure_def {α : Type} (a : α) : (pure a : Proc α) = ⟨[], some a⟩ := rfl

theorem error_def {α : Type} (msg : String) :
    (error msg : Proc α) = ⟨[Op.perror (some msg), Op.exit 1], none⟩ := rfl

theorem usage_def {α : Type} :
    (usage : Proc α) = ⟨[Op.cout usage_text, Op.exit 0], none⟩ := rfl

theorem _dup_def (answer fd : Int) :
    _dup answer fd = if answer < 0 then ⟨[Op.dup fd, Op.perror (some "dup"), Op.exit 1], none⟩
      else ⟨[Op.dup fd], some answer⟩ := by
  unfold _dup
  simp only [bind_def, bind_call]
  split <;> rfl

theorem _open_def (answer : Int) (pathname : String) :
    _open answer pathname =
      if answer < 0 then ⟨[Op.open_ pathname, Op.perror (some "open"), Op.exit 1], none⟩
      else ⟨[Op.open_ pathname], some answer⟩ := by
  unfold _open
  simp only [bind_def, bind_call]
  split <;> rfl

theorem _dup2_def (answer oldfd newfd : Int) :
    _dup2 answer oldfd newfd =
      if answer < 0 then ⟨[Op.dup2 oldfd newfd, Op.perror (some "dup2"), Op.exit 1], none⟩
      else ⟨[Op.dup2 oldfd newfd], some answer⟩ := by
  unfold _dup2
  simp only [bind_def, bind_call]
  split <;> rfl

theorem _close_def (answer fd : Int) :
    _close answer fd =
      if answer < 0 then ⟨[Op.close fd, Op.perror (some "close"), Op.exit 1], none⟩
      else ⟨[Op.close fd], some ()⟩ := by
  unfold _close
  simp only [bind_def, bind_call]
  split <;> rfl

theorem redirect_def (os : OS) :
    redirect os =
      if os.dup < 0 then ⟨[Op.dup STDOUT_FILENO, Op.perror (some "dup"), Op.exit 1], none⟩
      else if os.open_ < 0 then
        ⟨[Op.dup STDOUT_FILENO, Op.open_ "/dev/null", Op.perror (some "open"), Op.exit 1], none⟩
      else if os.dup2 < 0 then
        ⟨[Op.dup STDOUT_FILENO, Op.open_ "/dev/null", Op.dup2 os.open_ STDOUT_FILENO,
          Op.perror (some "dup2"), Op.exit 1], none⟩
      else if os.close < 0 then
        ⟨setup_ops os ++ [Op.perror (some "close"), Op.exit 1], none⟩
      else ⟨setup_ops os, some os.dup⟩ := by
  unfold redirect
  simp only [bind_def, _dup_def, _open_def, _dup2_def, _close_def, bind_ite, bind_none, bind_some,
    pure_def, setup_ops]
  split_ifs <;> simp

theorem restore_def (os : OS) (fd : Int) :
    restore os fd =
      if os.restore_dup2 < 0 then
        ⟨[Op.dup2 fd STDOUT_FILENO, Op.perror (some "dup2"), Op.exit 1], none⟩
      else if os.restore_close < 0 then
        ⟨restore_ops fd ++ [Op.perror (some "close"), Op.exit 1], none⟩
      else ⟨restore_ops fd, some ()⟩ := by
  unfold restore
  simp only [bind_def, _dup2_def, _close_def, bind_ite, bind_none, bind_some, restore_ops]
  split_ifs <;> simp

theorem before_vfork_def (argv : List String) (os : OS) :
    before_vfork argv os =
      if argv.length < 2 then ⟨[Op.cout usage_text, Op.exit 0], none⟩
      else match classify argv with
        | none => ⟨[], none⟩
        | some cfg =>
          if cfg.ignore then
            Proc.bind (redirect os) fun fd => ⟨[Op.now], some (cfg, fd, os.start)⟩
          else ⟨[Op.now], some (cfg, 0, os.start)⟩ := by
  unfold before_vfork
  simp only [bind_def, bind_ite, usage_def, bind_none, pure_def, bind_some]
  split_ifs with h
  · rfl
  · cases classify argv with
    | none => rfl
    | some cfg =>
      simp only [List.nil_append]
      cases cfg.ignore <;> rfl

theorem parent_branch_def (cfg : Config) (fd start : Int) (os : OS) :
    parent_branch cfg fd start os =
      if os.wait3 < 0 then ⟨[Op.wait3, Op.now, Op.perror (some "waitpid"), Op.exit 1], none⟩
      else
        Proc.bind ⟨[Op.wait3, Op.now] ++ warning_ops (wait_status os), some ()⟩ fun _ =>
        Proc.bind (if cfg.ignore then restore os fd else ⟨[], some ()⟩) fun _ =>
          ⟨[print_op cfg start os], some (exitonsig_of (wait_status os), wait_status os)⟩ := by
  unfold parent_branch
  simp only [bind_def, bind_call, bind_ite, error_def, bind_none, pure_def, bind_some,
    warning_ops, print_op, exitonsig_of]
  by_cases hw : os.wait3 < 0
  · simp [hw]
  · simp only [hw, if_false]
    cases hE : WIFEXITED (wait_status os) <;> cases hI : cfg.ignore <;>
      simp [Proc.bind, call]

theorem child_branch_trace {α : Type} (cfg : Config) (os : OS) :
    (child_branch cfg os : Proc α).trace =
      Op.execvp cfg.target.head? cfg.target ::
        (match os.execvp with
         | none => []
         | some errno => [Op.perror cfg.target.head?,
            Op._exit (exec_failure_code (errno_after_perror os errno))]) := by
  unfold child_branch
  cases os.execvp <;> rfl

theorem relay_def (os : OS) (exitonsig status : Nat) :
    relay os exitonsig status =
      ⟨(if exitonsig = 0 then []
        else if os.signal_err then [Op.signal exitonsig, Op.perror (some "signal")]
        else [Op.signal exitonsig, Op.kill exitonsig]) ++
       (if exitonsig ≠ 0 ∧ os.signal_err = false ∧ os.kill_returns = false then []
        else [Op.exit (if WIFEXITED status then WEXITSTATUS status else EXIT_FAILURE)]),
       none⟩ := by
  unfold relay
  simp only [bind_def, bind_call, bind_ite, pure_def]
  by_cases h0 : exitonsig = 0
  · simp [h0, Proc.bind, halt]
  · cases hs : os.signal_err <;> cases hk : os.kill_returns <;>
      simp [h0, Proc.bind, halt, call]

/-! ## Facts about the wait status -/

theorem exitonsig_of_exited (status : Nat) (h : WIFEXITED status = true) :
    exitonsig_of status = 0 := by
  have h0 : status % 128 = 0 := by simpa [WIFEXITED, WTERMSIG] using h
  simp [exitonsig_of, WIFSIGNALED, h0]

theorem signaled_termsig (status : Nat) (h : WIFSIGNALED status = true) :
    1 ≤ WTERMSIG status ∧ WTERMSIG status ≤ 126 ∧ WIFEXITED status = false := by
  have hlt : status % 128 < 128 := Nat.mod_lt _ (by norm_num)
  simp only [WIFSIGNALED, decide_eq_true_eq] at h
  simp only [WTERMSIG, WIFEXITED]
  split_ifs at h with hc
  · omega
  · refine ⟨by omega, by omega, ?_⟩
    have : status % 128 ≠ 0 := by omega
    simpa using this

theorem exitcode_status (code : Nat) :
    WIFEXITED (W_EXITCODE code) = true ∧ WEXITSTATUS (W_EXITCODE code) = code % 256 := by
  constructor
  · simp only [WIFEXITED, WTERMSIG, W_EXITCODE]
    have : code % 256 * 256 % 128 = 0 := by omega
    simp [this]
  · simp only [WEXITSTATUS, W_EXITCODE]
    omega

/-! ## The parent's run up to the exit relay -/

theorem before_vfork_some (argv : List String) (os : OS) (cfg : Config) (fd start : Int)
    (h : (before_vfork argv os).value = some (cfg, fd, start)) :
    2 ≤ argv.length ∧ classify argv = some cfg ∧ start = os.start ∧
    fd = (if cfg.ignore then os.dup else 0) ∧
    (before_vfork argv os).trace = (if cfg.ignore then setup_ops os else []) ++ [Op.now] := by
  rw [before_vfork_def] at h ⊢
  by_cases hlen : argv.length < 2
  · simp [hlen] at h
  · simp only [hlen, if_false] at h ⊢
    cases hc : classify argv with
    | none => simp [hc] at h
    | some c =>
      simp only [hc] at h ⊢
      cases hi : c.ignore
      · simp only [hi] at h ⊢
        simp at h
        obtain ⟨rfl, rfl, rfl⟩ := h
        simp [hi]
        omega
      · simp only [hi, if_true, redirect_def] at h ⊢
        split_ifs at h with h1 h2 h3 h4 <;> simp [Proc.bind] at h
        obtain ⟨rfl, rfl, rfl⟩ := h
        simp [hi, h1, h2, h3, h4, Proc.bind]
        omega

theorem before_vfork_none (argv : List String) (os : OS)
    (h : (before_vfork argv os).value = none) :
    Op.vfork ∉ (before_vfork argv os).trace ∧ Op.now ∉ (before_vfork argv os).trace := by
  rw [before_vfork_def] at h ⊢
  by_cases hlen : argv.length < 2
  · simp [hlen]
  · simp only [hlen, if_false] at h ⊢
    cases hc : classify argv with
    | none => simp
    | some c =>
      simp only [hc] at h ⊢
      cases hi : c.ignore
      · simp [hi] at h
      · simp only [hi, if_true, redirect_def, setup_ops] at h ⊢
        split_ifs at h ⊢ <;> simp [Proc.bind] at h ⊢

theorem before_relay_def (argv : List String) (os : OS) :
    before_relay argv os =
      Proc.bind (before_vfork argv os) fun x =>
        ⟨Op.vfork :: (from_vfork x.1 x.2.1 x.2.2 os os.vfork.val).trace,
         (from_vfork x.1 x.2.1 x.2.2 os os.vfork.val).value⟩ := rfl

theorem main_def (argv : List String) (os : OS) :
    main argv os = Proc.bind (before_relay argv os) fun x => relay os x.1 x.2 := rfl

theorem from_vfork_parent (cfg : Config) (fd start : Int) (os : OS) :
    from_vfork cfg fd start os os.vfork.val =
      if os.vfork.val > 0 then parent_branch cfg fd start os
      else ⟨[Op.perror (some "fork"), Op.exit 1], none⟩ := by
  unfold from_vfork
  simp only [os.vfork.property, if_false, error_def]

theorem parent_branch_some (cfg : Config) (fd start : Int) (os : OS) (e st : Nat)
    (h : (parent_branch cfg fd start os).value = some (e, st)) :
    st = wait_status os ∧ e = exitonsig_of st ∧
    (parent_branch cfg fd start os).trace =
      [Op.wait3, Op.now] ++ warning_ops st ++ (if cfg.ignore then restore_ops fd else []) ++
        [print_op cfg start os] := by
  rw [parent_branch_def] at h ⊢
  by_cases hw : os.wait3 < 0
  · simp [hw] at h
  · simp only [hw, if_false, bind_some] at h ⊢
    cases hi : cfg.ignore
    · simp only [hi] at h ⊢
      simp [Proc.bind] at h ⊢
      obtain ⟨rfl, rfl⟩ := h
      simp
    · simp only [hi, if_true, restore_def] at h ⊢
      split_ifs at h with h1 h2 <;> simp [Proc.bind] at h
      obtain ⟨rfl, rfl⟩ := h
      simp [h1, h2, Proc.bind]

theorem before_relay_some (argv : List String) (os : OS) (e st : Nat)
    (h : (before_relay argv os).value = some (e, st)) :
    ∃ cfg, classify argv = some cfg ∧ st = wait_status os ∧ e = exitonsig_of st ∧
      (before_vfork argv os).value = some (cfg, (if cfg.ignore then os.dup else 0), os.start) ∧
      0 < os.vfork.val ∧
      (before_relay argv os).trace =
        (if cfg.ignore then setup_ops os else []) ++ [Op.now, Op.vfork, Op.wait3, Op.now] ++
          warning_ops st ++ (if cfg.ignore then restore_ops os.dup else []) ++
          [print_op cfg os.start os] := by
  rw [before_relay_def] at h ⊢
  cases hv : (before_vfork argv os).value with
  | none =>
    simp [Proc.bind, hv] at h
  | some x =>
    obtain ⟨cfg, fd, start⟩ := x
    obtain ⟨_, hc, rfl, rfl, ht⟩ := before_vfork_some argv os cfg fd start hv
    simp only [Proc.bind, hv, from_vfork_parent] at h ⊢
    by_cases hp : os.vfork.val > 0
    · simp only [hp, if_true] at h ⊢
      obtain ⟨h1, h2, h3⟩ := parent_branch_some cfg _ _ os e st h
      refine ⟨cfg, hc, h1, h2, rfl, trivial, ?_⟩
      rw [ht, h3]
      cases cfg.ignore <;> simp
    · simp [hp] at h

theorem main_trace_of_reach (argv : List String) (os : OS) (e st : Nat)
    (h : (before_relay argv os).value = some (e, st)) :
    (main argv os).trace = (before_relay argv os).trace ++ (relay os e st).trace ∧
    (main argv os).value = none := by
  rw [main_def]
  simp only [Proc.bind, h, relay_def]
  exact ⟨trivial, trivial⟩

theorem before_relay_ops (argv : List String) (os : OS) (e st : Nat)
    (h : (before_relay argv os).value = some (e, st)) :
    ∀ op ∈ (before_relay argv os).trace,
      (∀ c, op ≠ Op.exit c) ∧ (∀ s, op ≠ Op.signal s) ∧ (∀ s, op ≠ Op.kill s) := by
  obtain ⟨cfg, _, _, _, _, _, ht⟩ := before_relay_some argv os e st h
  rw [ht]
  cases cfg.ignore <;> cases hE : WIFEXITED st <;>
    simp [setup_ops, restore_ops, warning_ops, print_op, hE]

/-! ## The exit relay -/

/-- C1: when the parent reaches the exit relay with a wait status that encodes
a normal exit with code `K` (`WIFEXITED` true, `WEXITSTATUS = K`, so `K` is one
of 0..255), `exitonsig` is 0, `main` issues no `signal` and no `kill`, and the
last operation of the parent is `exit(K)`. -/
theorem C1_exit_code_relayed (argv : List String) (os : OS) (K exitonsig status : Nat)
    (hreach : (before_relay argv os).value = some (exitonsig, status))
    (hexited : WIFEXITED status = true) (hcode : WEXITSTATUS status = K) :
    K ≤ 255 ∧ exitonsig = 0 ∧
    (main argv os).trace = (before_relay argv os).trace ++ [Op.exit K] ∧
    (main argv os).value = none ∧
    ∀ s, Op.signal s ∉ (main argv os).trace ∧ Op.kill s ∉ (main argv os).trace := by
  obtain ⟨cfg, _, hst, he, _, _, _⟩ := before_relay_some argv os exitonsig status hreach
  have he0 : exitonsig = 0 := by rw [he]; exact exitonsig_of_exited status hexited
  obtain ⟨ht, hv⟩ := main_trace_of_reach argv os exitonsig status hreach
  have hops := before_relay_ops argv os exitonsig status hreach
  have hK : K ≤ 255 := by
    rw [← hcode]
    have := Nat.mod_lt (status / 256) (show 256 > 0 by norm_num)
    simp only [WEXITSTATUS]
    omega
  have hrel : (relay os exitonsig status).trace = [Op.exit K] := by
    rw [relay_def]
    simp [he0, hexited, hcode]
  refine ⟨hK, he0, ?_, hv, ?_⟩
  · rw [ht, hrel]
  · intro s
    rw [ht, hrel]
    constructor
    · intro hmem
      rcases List.mem_append.mp hmem with h | h
      · exact (hops _ h).2.1 s rfl
      · simp at h
    · intro hmem
      rcases List.mem_append.mp hmem with h | h
      · exact (hops _ h).2.2 s rfl
      · simp at h

/-- C1 at a concrete run: `timer -i ls` where `ls` exits with code 3. -/
theorem C1_exit_code_relayed_witness :
    (main ["timer", "-i", "ls"] { os_fine with target_status := 768 }).trace.getLast? =
      some (Op.exit 3) ∧
    ∀ s, Op.signal s ∉ (main ["timer", "-i", "ls"] { os_fine with target_status := 768 }).trace ∧
      Op.kill s ∉ (main ["timer", "-i", "ls"] { os_fine with target_status := 768 }).trace := by
  have h := C1_exit_code_relayed ["timer", "-i", "ls"] { os_fine with target_status := 768 }
    3 0 768 (by decide) (by decide) (by decide)
  refine ⟨?_, h.2.2.2.2⟩
  rw [h.2.2.1]
  simp

/-- C2, as the claim states it, fails: for a child killed by signal 9, whose
disposition the operating system refuses to change, the relay asks for the
default disposition, reports the refusal, delivers no signal at all and ends
with `exit(EXIT_FAILURE)`. -/
theorem C2_counterexample :
    (before_relay ["timer", "sleep", "100"] os_killed).value = some (9, 9) ∧
    WIFSIGNALED 9 = true ∧ WTERMSIG 9 = 9 ∧
    Op.kill 9 ∉ (main ["timer", "sleep", "100"] os_killed).trace ∧
    (main ["timer", "sleep", "100"] os_killed).trace =
      [Op.now, Op.vfork, Op.wait3, Op.now, Op.cerr "Command terminated abnormally.\n",
       Op.print_result false 2500 1500 500 2048,
       Op.signal 9, Op.perror (some "signal"), Op.exit 1] := by
  decide

/-- C2 amended: when the parent reaches the exit relay with a wait status that
encodes termination by signal `S` (`WIFSIGNALED` true, `WTERMSIG = S`), then
`S` is not 0 and `exitonsig = S`, no `exit` has been called before, and the
relay first asks for the default disposition of `S`; if that request succeeds
it delivers `S` to its own process, and only then, if the delivery returns,
calls `exit(EXIT_FAILURE)`; if the request is refused it reports the refusal,
delivers no signal and calls `exit(EXIT_FAILURE)`. -/
theorem C2_signal_relayed (argv : List String) (os : OS) (S exitonsig status : Nat)
    (hreach : (before_relay argv os).value = some (exitonsig, status))
    (hsignaled : WIFSIGNALED status = true) (hsig : WTERMSIG status = S) :
    S ≠ 0 ∧ exitonsig = S ∧
    (∀ c, Op.exit c ∉ (before_relay argv os).trace) ∧
    (main argv os).trace = (before_relay argv os).trace ++ Op.signal S ::
      (if os.signal_err then [Op.perror (some "signal"), Op.exit EXIT_FAILURE]
       else if os.kill_returns then [Op.kill S, Op.exit EXIT_FAILURE]
       else [Op.kill S]) := by
  obtain ⟨cfg, _, hst, he, _, _, _⟩ := before_relay_some argv os exitonsig status hreach
  obtain ⟨h1, _, hne⟩ := signaled_termsig status hsignaled
  have heS : exitonsig = S := by rw [he, exitonsig_of, hsignaled, if_pos rfl, hsig]
  have hS0 : S ≠ 0 := by omega
  obtain ⟨ht, _⟩ := main_trace_of_reach argv os exitonsig status hreach
  have hops := before_relay_ops argv os exitonsig status hreach
  refine ⟨hS0, heS, fun c hmem => (hops _ hmem).1 c rfl, ?_⟩
  rw [ht, relay_def, heS]
  cases hs : os.signal_err <;> cases hk : os.kill_returns <;> simp [hS0, hne]

/-- C2 amended at two concrete runs: a child killed by signal 11, which the
parent delivers to itself, and a child killed by signal 9. -/
theorem C2_signal_relayed_witness :
    (main ["timer", "ls", "-l"] { os_fine with target_status := 11 }).trace =
      (before_relay ["timer", "ls", "-l"] { os_fine with target_status := 11 }).trace ++
        [Op.signal 11, Op.kill 11] ∧
    (main ["timer", "sleep", "100"] os_killed).trace =
      (before_relay ["timer", "sleep", "100"] os_killed).trace ++
        [Op.signal 9, Op.perror (some "signal"), Op.exit EXIT_FAILURE] :=
  ⟨(C2_signal_relayed ["timer", "ls", "-l"] { os_fine with target_status := 11 } 11 11 11
      (by decide) (by decide) (by decide)).2.2.2,
   (C2_signal_relayed ["timer", "sleep", "100"] os_killed 9 9 9
      (by decide) (by decide) (by decide)).2.2.2⟩


/-! ## The argument classifier -/

theorem skip_index_le (argv : List String) (h : 2 ≤ argv.length) :
    skip_index argv ≤ argv.length := by
  match argv, h with
  | [_, a1], _ =>
    simp only [skip_index, fused, ignore_flag, non_interactive_flag, strcmp0, b2i,
      IGNORE_OUTPUT_SHORT, IGNORE_OUTPUT, NON_INTERACTIVE, NON_INTERACTIVE_SHORT]
    by_cases h1 : a1 = "-i" <;> by_cases h2 : a1 = "--ignore-output" <;>
      (simp_all; all_goals (split_ifs <;> omega))
  | _ :: a1 :: a2 :: rest, _ =>
    simp only [skip_index, b2i, List.length_cons]
    split_ifs <;> omega

theorem classify_eq (argv : List String) (h : 2 ≤ argv.length) :
    classify argv =
      some ⟨fused argv || ignore_flag argv, fused argv || non_interactive_flag argv,
        argv.drop (skip_index argv)⟩ := by
  have hle := skip_index_le argv h
  unfold skip_index at hle
  unfold classify skip_index advance
  by_cases hf : fused argv = true
  · simp only [hf, if_true] at hle ⊢
    simp [hle]
  · simp only [Bool.not_eq_true] at hf
    simp only [hf, Bool.false_eq_true, if_false] at hle ⊢
    simp [hle]

/-- C3: whatever the remaining vector `t` is, every spelling and order of the
two-flag prefix (`-in`, `-ni`, and each spelling of one flag followed by each
spelling of the other) gives the configuration with both flags set and target
`t`; and for a single flag the short and the long spelling, followed by the
same `t`, give the same configuration. -/
theorem C3_flag_spellings_agree (p : String) (t : List String) :
    (∀ f ∈ two_flag_prefixes, classify (p :: (f ++ t)) = some ⟨true, true, t⟩) ∧
    classify (p :: "-i" :: t) = classify (p :: "--ignore-output" :: t) ∧
    classify (p :: "-n" :: t) = classify (p :: "--non-interactive" :: t) := by
  refine ⟨?_, ?_, ?_⟩
  · simp [two_flag_prefixes, classify, fused, ignore_flag, non_interactive_flag, strcmp0,
      advance, b2i, IGNORE_OUTPUT_SHORT, IGNORE_OUTPUT, NON_INTERACTIVE, NON_INTERACTIVE_SHORT]
  · simp only [classify, fused, ignore_flag, non_interactive_flag, strcmp0, advance, b2i,
      IGNORE_OUTPUT_SHORT, IGNORE_OUTPUT, NON_INTERACTIVE, NON_INTERACTIVE_SHORT]
    by_cases h : (1 ≤ t.length ∧ (t[0]? = some "-n" ∨ t[0]? = some "--non-interactive")) <;>
      simp [h]
  · simp only [classify, fused, ignore_flag, non_interactive_flag, strcmp0, advance, b2i,
      IGNORE_OUTPUT_SHORT, IGNORE_OUTPUT, NON_INTERACTIVE, NON_INTERACTIVE_SHORT]
    by_cases h : (1 ≤ t.length ∧ (t[0]? = some "-i" ∨ t[0]? = some "--ignore-output")) <;>
      simp [h]

/-! ## What `main` issues when arguments are given -/

theorem bind_mem {α β : Type} (p : Proc α) (f : α → Proc β) (op : Op)
    (h : op ∈ (Proc.bind p f).trace) : op ∈ p.trace ∨ ∃ a, op ∈ (f a).trace := by
  unfold Proc.bind at h
  cases hv : p.value with
  | none => simp only [hv] at h; exact Or.inl h
  | some a =>
    simp only [hv, List.mem_append] at h
    rcases h with h | h
    · exact Or.inl h
    · exact Or.inr ⟨a, h⟩

theorem redirect_no_cout (os : OS) (text : String) : Op.cout text ∉ (redirect os).trace := by
  rw [redirect_def]
  split_ifs <;> simp [setup_ops]

theorem parent_branch_no_cout (cfg : Config) (fd start : Int) (os : OS) (text : String) :
    Op.cout text ∉ (parent_branch cfg fd start os).trace := by
  rw [parent_branch_def]
  by_cases hw : os.wait3 < 0
  · simp [hw]
  · simp only [hw, if_false, bind_some, restore_def]
    cases hi : cfg.ignore <;> cases hE : WIFEXITED (wait_status os) <;>
      simp only [if_true, if_false, Bool.false_eq_true] <;>
      (try split_ifs) <;> simp [Proc.bind, warning_ops, hE, restore_ops, print_op]

theorem main_no_cout (argv : List String) (os : OS) (h : 2 ≤ argv.length) (text : String) :
    Op.cout text ∉ (main argv os).trace := by
  intro hm
  rw [main_def] at hm
  rcases bind_mem _ _ _ hm with hm | ⟨x, hm⟩
  · rw [before_relay_def] at hm
    rcases bind_mem _ _ _ hm with hm | ⟨x, hm⟩
    · rw [before_vfork_def, if_neg (by omega), classify_eq argv h] at hm
      simp only at hm
      split_ifs at hm
      · rcases bind_mem _ _ _ hm with hm | ⟨x, hm⟩
        · exact redirect_no_cout os text hm
        · simp at hm
      · simp at hm
    · simp only [from_vfork_parent, List.mem_cons] at hm
      rcases hm with hm | hm
      · cases hm
      · split_ifs at hm
        · exact parent_branch_no_cout _ _ _ os text hm
        · simp at hm
  · rw [relay_def] at hm
    simp only at hm
    split_ifs at hm <;> simp at hm

theorem main_trace_to_vfork (argv : List String) (os : OS) (x : Config × Int × Int)
    (hv : (before_vfork argv os).value = some x) :
    ∃ post, (main argv os).trace = (before_vfork argv os).trace ++ [Op.vfork] ++ post := by
  rw [main_def, before_relay_def]
  simp only [Proc.bind, hv]
  split
  · exact ⟨_, by simp; rfl⟩
  · exact ⟨_, by simp; rfl⟩

theorem main_first_op_of_ignore (argv : List String) (os : OS) (cfg : Config)
    (hc : classify argv = some cfg) (hl : 2 ≤ argv.length) (hi : cfg.ignore = true) :
    (main argv os).trace.head? = some (Op.dup STDOUT_FILENO) := by
  rw [main_def, before_relay_def, before_vfork_def, if_neg (by omega), hc]
  simp only [hi, if_true, redirect_def]
  split_ifs <;> simp [Proc.bind, setup_ops]
  split <;> simp

/-- C4 on the code, at `timer ls -i`: the first token `ls` is no flag, yet the
classifier reads the second token as the flag ignore-output, sets `ignore`,
skips `ls`, and the target vector is `-i` alone, not `ls -i`. Whatever the
operating system answers, the first operation of `main` is the `dup` of the
standard output that begins the redirection; and where the calls of the parent
succeed, whatever `execvp` does, the parent redirects the standard output,
creates a child, and the child calls `execvp` for a file `-i`, not for `ls`. -/
theorem C4_flag_read_after_program :
    "ls" ∉ flag_tokens ∧
    classify ["timer", "ls", "-i"] = some ⟨true, false, ["-i"]⟩ ∧
    classify ["timer", "ls", "-i"] ≠ some ⟨false, false, ["ls", "-i"]⟩ ∧
    (∀ os : OS, (main ["timer", "ls", "-i"] os).trace.head? = some (Op.dup STDOUT_FILENO)) ∧
    (∀ (e pe : Option Nat) (st : Nat),
      (∃ post, (main ["timer", "ls", "-i"]
          { os_fine with execvp := e, perror_errno := pe, target_status := st }).trace =
        setup_ops os_fine ++ [Op.now, Op.vfork] ++ post) ∧
      (child ["timer", "ls", "-i"]
          { os_fine with execvp := e, perror_errno := pe, target_status := st }).head? =
        some (Op.execvp (some "-i") ["-i"])) := by
  refine ⟨by decide, by decide, by decide, ?_, ?_⟩
  · intro os
    exact main_first_op_of_ignore _ os ⟨true, false, ["-i"]⟩ (by decide) (by decide) rfl
  · intro e pe st
    constructor
    · exact main_trace_to_vfork ["timer", "ls", "-i"]
        { os_fine with execvp := e, perror_errno := pe, target_status := st }
        (⟨true, false, ["-i"]⟩, 3, 1000000) rfl
    · cases e <;> rfl

/-- C5 on the code, at `timer -i` and `timer -in`: the target vector is empty,
and yet, whatever the operating system answers, `main` writes no usage text;
where the calls of the parent succeed, whatever `execvp` does, the parent
redirects the standard output and creates a child, and the child calls `execvp`
with a null file name and an empty vector. -/
theorem C5_flags_without_program :
    classify ["timer", "-i"] = some ⟨true, false, []⟩ ∧
    classify ["timer", "-in"] = some ⟨true, true, []⟩ ∧
    (∀ a ∈ [["timer", "-i"], ["timer", "-in"]],
      (∀ os : OS, Op.cout usage_text ∉ (main a os).trace) ∧
      (∀ (e pe : Option Nat) (st : Nat),
        (∃ post, (main a
            { os_fine with execvp := e, perror_errno := pe, target_status := st }).trace =
          setup_ops os_fine ++ [Op.now, Op.vfork] ++ post) ∧
        (child a { os_fine with execvp := e, perror_errno := pe, target_status := st }).head? =
          some (Op.execvp none []))) := by
  refine ⟨by decide, by decide, ?_⟩
  intro a ha
  simp only [List.mem_cons, List.mem_singleton, List.not_mem_nil, or_false] at ha
  rcases ha with rfl | rfl
  · refine ⟨fun os => main_no_cout _ os (by decide) _, fun e pe st => ⟨?_, ?_⟩⟩
    · exact main_trace_to_vfork ["timer", "-i"]
        { os_fine with execvp := e, perror_errno := pe, target_status := st }
        (⟨true, false, []⟩, 3, 1000000) rfl
    · cases e <;> rfl
  · refine ⟨fun os => main_no_cout _ os (by decide) _, fun e pe st => ⟨?_, ?_⟩⟩
    · exact main_trace_to_vfork ["timer", "-in"]
        { os_fine with execvp := e, perror_errno := pe, target_status := st }
        (⟨true, true, []⟩, 3, 1000000) rfl
    · cases e <;> rfl

/-- C10: for every argument vector with `argc ≥ 2`, the number of leading
tokens the classifier skips (1 for a fused first token, otherwise the sum of
the two flags, each 0 or 1) is at most the number of arguments supplied, the
index of `argv = &argv[k]` is at most `argc`, and the target vector is the
suffix of the original vector that starts at that index. -/
theorem C10_skip_within_bounds (argv : List String) (h : 2 ≤ argv.length) :
    skip_index argv =
      1 + (if fused argv then 1 else b2i (ignore_flag argv) + b2i (non_interactive_flag argv)) ∧
    skip_index argv - 1 ≤ argv.length - 1 ∧
    skip_index argv ≤ argv.length ∧
    ∃ cfg, classify argv = some cfg ∧ cfg.target = argv.drop (skip_index argv) ∧
      cfg.target <:+ argv := by
  have hle := skip_index_le argv h
  refine ⟨?_, by omega, hle, ?_⟩
  · unfold skip_index
    split_ifs <;> omega
  · refine ⟨_, classify_eq argv h, rfl, ?_⟩
    exact List.drop_suffix _ _

/-- C10 at concrete vectors: `timer -i` (one argument, one token skipped) and
`timer -n -i ls -l`. -/
theorem C10_skip_within_bounds_witness :
    skip_index ["timer", "-i"] ≤ 2 ∧
    (∃ cfg, classify ["timer", "-n", "-i", "ls", "-l"] = some cfg ∧
      cfg.target = ["timer", "-n", "-i", "ls", "-l"].drop
        (skip_index ["timer", "-n", "-i", "ls", "-l"]) ∧
      cfg.target <:+ ["timer", "-n", "-i", "ls", "-l"]) :=
  ⟨(C10_skip_within_bounds ["timer", "-i"] (by decide)).2.2.1,
   (C10_skip_within_bounds ["timer", "-n", "-i", "ls", "-l"] (by decide)).2.2.2⟩


/-! ## A failed image replacement -/

theorem child_of_before_vfork (argv : List String) (os : OS) (cfg : Config) (fd start : Int)
    (hv : (before_vfork argv os).value = some (cfg, fd, start)) (hp : 0 < os.vfork.val) :
    child argv os =
      Op.execvp cfg.target.head? cfg.target ::
        (match os.execvp with
         | none => []
         | some errno => [Op.perror cfg.target.head?,
            Op._exit (exec_failure_code (errno_after_perror os errno))]) := by
  unfold child
  simp only [hv, gt_iff_lt, hp, if_true, from_vfork, child_branch_trace]

theorem child_cases (argv : List String) (os : OS) :
    child argv os = [] ∨
    ∃ cfg, classify argv = some cfg ∧ child argv os =
      Op.execvp cfg.target.head? cfg.target ::
        (match os.execvp with
         | none => []
         | some errno => [Op.perror cfg.target.head?,
            Op._exit (exec_failure_code (errno_after_perror os errno))]) := by
  cases hv : (before_vfork argv os).value with
  | none => left; simp [child, hv]
  | some x =>
    obtain ⟨cfg, fd, start⟩ := x
    by_cases hp : 0 < os.vfork.val
    · right
      exact ⟨cfg, (before_vfork_some argv os cfg fd start hv).2.1,
        child_of_before_vfork argv os cfg fd start hv hp⟩
    · left
      simp [child, hv, hp]

/-- C8 on the code, at `timer nonesuch` with the standard error not open for
reading: `execvp` returns with `ENOENT`, the error for which line 158 gives
127; `perror` runs at line 157, before the test, and leaves `EINVAL` in `errno`;
the test `errno == ENOENT` then fails, the child ends with `_exit(126)` and the
parent, relaying a normal exit, with `exit(126)`. Whatever error `execvp`
leaves, the code of the child is that of the error `perror` leaves; where
`perror` leaves `errno` as it was, the same invocation gives 127 in the child
and in the parent. -/
theorem C8_errno_tested_after_perror :
    exec_failure_code ENOENT = 127 ∧
    os_stderr_write_only.execvp = some ENOENT ∧
    errno_after_perror os_stderr_write_only ENOENT = EINVAL ∧
    child ["timer", "nonesuch"] os_stderr_write_only =
      [Op.execvp (some "nonesuch") ["nonesuch"], Op.perror (some "nonesuch"), Op._exit 126] ∧
    (main ["timer", "nonesuch"] os_stderr_write_only).trace =
      [Op.now, Op.vfork, Op.wait3, Op.now, Op.print_result false 2500 1500 500 2048,
       Op.exit 126] ∧
    (∀ e0 e : Nat,
      child ["timer", "nonesuch"]
          { os_fine with execvp := some e0, perror_errno := some e } =
        [Op.execvp (some "nonesuch") ["nonesuch"], Op.perror (some "nonesuch"),
         Op._exit (exec_failure_code e)]) ∧
    child ["timer", "nonesuch"] { os_fine with execvp := some ENOENT } =
      [Op.execvp (some "nonesuch") ["nonesuch"], Op.perror (some "nonesuch"), Op._exit 127] ∧
    (main ["timer", "nonesuch"] { os_fine with execvp := some ENOENT }).trace.getLast? =
      some (Op.exit 127) := by
  refine ⟨by decide, rfl, by decide, by decide, by decide, fun e0 e => rfl, by decide,
    by decide⟩

/-! ## When the parent reaches the exit relay -/

theorem redirect_isSome (os : OS) :
    (redirect os).value.isSome = true ↔
      0 ≤ os.dup ∧ 0 ≤ os.open_ ∧ 0 ≤ os.dup2 ∧ 0 ≤ os.close := by
  rw [redirect_def]
  split_ifs <;> simp <;> omega

theorem restore_isSome (os : OS) (fd : Int) :
    (restore os fd).value.isSome = true ↔ 0 ≤ os.restore_dup2 ∧ 0 ≤ os.restore_close := by
  rw [restore_def]
  split_ifs <;> simp <;> omega

theorem bind_isSome {α β : Type} (p : Proc α) (f : α → Proc β) :
    (Proc.bind p f).value.isSome = true ↔ ∃ a, p.value = some a ∧ (f a).value.isSome = true := by
  unfold Proc.bind
  cases h : p.value <;> simp

/-- The parent reaches the exit relay exactly when a program is named, the
redirection (when `ignore` is set) succeeds, a child is created, the wait
succeeds and the restore (when `ignore` is set) succeeds. -/
theorem reaches_relay_iff (argv : List String) (os : OS) :
    (before_relay argv os).value.isSome = true ↔
      2 ≤ argv.length ∧ 0 < os.vfork.val ∧ 0 ≤ os.wait3 ∧
      ((fused argv || ignore_flag argv) = true →
        (0 ≤ os.dup ∧ 0 ≤ os.open_ ∧ 0 ≤ os.dup2 ∧ 0 ≤ os.close) ∧
        (0 ≤ os.restore_dup2 ∧ 0 ≤ os.restore_close)) := by
  rw [before_relay_def, before_vfork_def]
  by_cases hlen : argv.length < 2
  · rw [if_pos hlen]
    simp [Proc.bind]
    omega
  · have h2 : 2 ≤ argv.length := by omega
    rw [if_neg hlen, classify_eq argv h2]
    simp only [from_vfork_parent, parent_branch_def, bind_isSome]
    by_cases hi : (fused argv || ignore_flag argv) = true
    · simp only [hi, if_true, h2, true_and, forall_true_left, ← redirect_isSome,
        ← restore_isSome os os.dup]
      constructor
      · rintro ⟨⟨cfg, fd, st⟩, hv, hrest⟩
        have hr : (redirect os).value = some fd := by
          cases hrv : (redirect os).value with
          | none => simp [Proc.bind, hrv] at hv
          | some x => simp [Proc.bind, hrv] at hv; rw [hv.2.1]
        have hfd : fd = os.dup := by
          rw [redirect_def] at hr
          split_ifs at hr; simp at hr
          exact hr.symm
        have hcfg : cfg.ignore = true := by
          simp [Proc.bind, hr] at hv
          rw [← hv.1]
        subst hfd
        by_cases hp : os.vfork.val > 0
        · by_cases hw : os.wait3 < 0
          · simp [hp, hw] at hrest
          · simp only [hp, hw, if_true, if_false, hcfg, bind_isSome] at hrest
            obtain ⟨_, _, _, hR, _⟩ := hrest
            refine ⟨hp, by omega, by simp [hr], by simp [hR]⟩
        · simp [hp] at hrest
      · rintro ⟨hp, hw, hr, hR⟩
        obtain ⟨fd, hfd⟩ := Option.isSome_iff_exists.mp hr
        have hfd2 : fd = os.dup := by
          rw [redirect_def] at hfd
          split_ifs at hfd; simp at hfd
          exact hfd.symm
        subst hfd2
        obtain ⟨u, hu⟩ := Option.isSome_iff_exists.mp hR
        refine ⟨(⟨true, fused argv || non_interactive_flag argv, argv.drop (skip_index argv)⟩,
          os.dup, os.start), by simp [Proc.bind, hfd], ?_⟩
        have hw' : ¬ os.wait3 < 0 := by omega
        simp [hp, hw', Proc.bind, hu]
    · simp only [hi, h2, true_and, Bool.false_eq_true, if_false, false_implies, and_true]
      by_cases hp : os.vfork.val > 0
      · by_cases hw : os.wait3 < 0
        · simp [Proc.bind, hp, hw]
        · simp [Proc.bind, hp, hw]
          omega
      · simp [Proc.bind, hp]

/-! ## The measured window -/

theorem relay_ops (os : OS) (e st : Nat) :
    ∀ op ∈ (relay os e st).trace,
      op ≠ Op.now ∧ op ≠ Op.vfork ∧ op ≠ Op.wait3 ∧ is_redirector op = false := by
  rw [relay_def]
  by_cases h0 : e = 0 <;> cases hs : os.signal_err <;> cases hk : os.kill_returns <;>
    simp [h0, is_redirector]

theorem parent_branch_tail (cfg : Config) (fd start : Int) (os : OS) :
    ∃ rest, (parent_branch cfg fd start os).trace = [Op.wait3, Op.now] ++ rest ∧
      ∀ op ∈ rest, op ≠ Op.now ∧ op ≠ Op.vfork ∧ op ≠ Op.wait3 ∧
        (is_redirector op = true → cfg.ignore = true ∧ op ∈ restore_ops fd) := by
  rw [parent_branch_def]
  by_cases hw : os.wait3 < 0
  · refine ⟨[Op.perror (some "waitpid"), Op.exit 1], by simp [hw], ?_⟩
    simp [is_redirector]
  · simp only [hw, if_false, bind_some, restore_def]
    cases hi : cfg.ignore <;> cases hE : WIFEXITED (wait_status os)
    · refine ⟨_, by simp [Proc.bind, warning_ops, hE]; rfl, ?_⟩
      simp [is_redirector, print_op]
    · refine ⟨_, by simp [Proc.bind, warning_ops, hE]; rfl, ?_⟩
      simp [is_redirector, print_op]
    · by_cases h1 : os.restore_dup2 < 0
      · refine ⟨_, by simp [Proc.bind, warning_ops, hE, h1]; rfl, ?_⟩
        simp [is_redirector, restore_ops]
      · by_cases h2 : os.restore_close < 0
        · refine ⟨_, by simp [Proc.bind, warning_ops, hE, h1, h2]; rfl, ?_⟩
          simp [is_redirector, restore_ops]
        · refine ⟨_, by simp [Proc.bind, warning_ops, hE, h1, h2]; rfl, ?_⟩
          simp [is_redirector, restore_ops, print_op]
    · by_cases h1 : os.restore_dup2 < 0
      · refine ⟨_, by simp [Proc.bind, warning_ops, hE, h1]; rfl, ?_⟩
        simp [is_redirector, restore_ops]
      · by_cases h2 : os.restore_close < 0
        · refine ⟨_, by simp [Proc.bind, warning_ops, hE, h1, h2]; rfl, ?_⟩
          simp [is_redirector, restore_ops]
        · refine ⟨_, by simp [Proc.bind, warning_ops, hE, h1, h2]; rfl, ?_⟩
          simp [is_redirector, restore_ops, print_op]

theorem child_ops (argv : List String) (os : OS) :
    ∀ op ∈ child argv os, is_redirector op = false ∧ op ≠ Op.now := by
  rcases child_cases argv os with h | ⟨cfg, _, h⟩
  · simp [h]
  · rw [h]
    cases os.execvp <;> simp [is_redirector]

/-- C9: in every run of `main` that reaches process creation, the parent's
operations are, in order: the four setup operations of the redirector when
`ignore` is set (none otherwise), the start clock read, `vfork`, and then
either the report of a failed creation, or `wait3`, the end clock read, and
operations among which there is no clock read, no `vfork`, no `wait3`, and no
redirector operation other than the two restore operations, issued only when
`ignore` is set. So between the two clock reads there are exactly `vfork` and
`wait3`; the child itself issues no redirector operation and reads no clock. -/
theorem C9_redirector_outside_window (argv : List String) (os : OS) (cfg : Config)
    (hcfg : classify argv = some cfg) (hreach : Op.vfork ∈ (main argv os).trace) :
    (∃ post, (main argv os).trace =
        (if cfg.ignore then setup_ops os else []) ++ [Op.now, Op.vfork] ++ post ∧
      (post = [Op.perror (some "fork"), Op.exit 1] ∨
       ∃ rest, post = [Op.wait3, Op.now] ++ rest ∧
         ∀ op ∈ rest, op ≠ Op.now ∧ op ≠ Op.vfork ∧ op ≠ Op.wait3 ∧
           (is_redirector op = true → cfg.ignore = true ∧ op ∈ restore_ops os.dup))) ∧
    ∀ op ∈ child argv os, is_redirector op = false ∧ op ≠ Op.now := by
  refine ⟨?_, child_ops argv os⟩
  cases hv : (before_vfork argv os).value with
  | none =>
    exfalso
    have hmain : (main argv os).trace = (before_vfork argv os).trace := by
      rw [main_def, before_relay_def]
      simp [Proc.bind, hv]
    rw [hmain] at hreach
    exact (before_vfork_none argv os hv).1 hreach
  | some x =>
    obtain ⟨c, fd, start⟩ := x
    obtain ⟨_, hc, rfl, rfl, ht⟩ := before_vfork_some argv os c fd start hv
    have hcc : c = cfg := by
      rw [hc] at hcfg
      exact Option.some.inj hcfg
    subst hcc
    rw [main_def, before_relay_def]
    simp only [Proc.bind, hv, from_vfork_parent, ht]
    by_cases hp : os.vfork.val > 0
    · simp only [hp, if_true]
      obtain ⟨rest, hrest, hP⟩ := parent_branch_tail c (if c.ignore then os.dup else 0)
        os.start os
      have hfd : ∀ op, (c.ignore = true ∧
          op ∈ restore_ops (if c.ignore then os.dup else 0)) →
          (c.ignore = true ∧ op ∈ restore_ops os.dup) := by
        intro op ⟨h1, h2⟩
        rw [if_pos h1] at h2
        exact ⟨h1, h2⟩
      cases hval : (parent_branch c (if c.ignore then os.dup else 0) os.start os).value with
      | none =>
        refine ⟨[Op.wait3, Op.now] ++ rest, ?_, Or.inr ⟨rest, rfl, ?_⟩⟩
        · simp [hrest]
        · intro op hop
          obtain ⟨h1, h2, h3, h4⟩ := hP op hop
          exact ⟨h1, h2, h3, fun h => hfd op (h4 h)⟩
      | some y =>
        refine ⟨[Op.wait3, Op.now] ++ (rest ++ (relay os y.1 y.2).trace), ?_,
          Or.inr ⟨_, rfl, ?_⟩⟩
        · simp [hrest]
        · intro op hop
          rcases List.mem_append.mp hop with hop | hop
          · obtain ⟨h1, h2, h3, h4⟩ := hP op hop
            exact ⟨h1, h2, h3, fun h => hfd op (h4 h)⟩
          · obtain ⟨h1, h2, h3, h4⟩ := relay_ops os y.1 y.2 op hop
            exact ⟨h1, h2, h3, fun h => by rw [h4] at h; exact absurd h (by decide)⟩
    · refine ⟨[Op.perror (some "fork"), Op.exit 1], ?_, Or.inl rfl⟩
      simp [hp]

/-- C9 at a concrete run: `timer -i ls`, every call succeeding. -/
theorem C9_redirector_outside_window_witness :
    ∃ post, (main ["timer", "-i", "ls"] os_fine).trace =
        (if (true : Bool) then setup_ops os_fine else []) ++ [Op.now, Op.vfork] ++ post ∧
      (post = [Op.perror (some "fork"), Op.exit 1] ∨
       ∃ rest, post = [Op.wait3, Op.now] ++ rest ∧
         ∀ op ∈ rest, op ≠ Op.now ∧ op ≠ Op.vfork ∧ op ≠ Op.wait3 ∧
           (is_redirector op = true → true = true ∧ op ∈ restore_ops os_fine.dup)) :=
  (C9_redirector_outside_window ["timer", "-i", "ls"] os_fine ⟨true, false, ["ls"]⟩
    (by decide) (by decide)).1


/-! ## The non-interactive report -/

theorem digitChar_isDigit (m : Nat) (h : m < 10) :
    (Nat.digitChar m).isDigit = true ∧ (Nat.digitChar m).toNat - 48 = m := by
  interval_cases m <;> decide

theorem toDigitsCore_append (fuel n : Nat) (ds : List Char) :
    Nat.toDigitsCore 10 fuel n ds = Nat.toDigitsCore 10 fuel n [] ++ ds := by
  induction fuel generalizing n ds with
  | zero => simp [Nat.toDigitsCore]
  | succ f ih =>
    simp only [Nat.toDigitsCore]
    split_ifs
    · simp
    · rw [ih (n / 10) (Nat.digitChar (n % 10) :: ds), ih (n / 10) [Nat.digitChar (n % 10)]]
      simp

theorem toDigitsCore_spec (fuel n : Nat) (h : n < fuel) :
    (∀ c ∈ Nat.toDigitsCore 10 fuel n [], c.isDigit = true) ∧
    Nat.toDigitsCore 10 fuel n [] ≠ [] ∧
    decimal_value (Nat.toDigitsCore 10 fuel n []) = n := by
  induction fuel generalizing n with
  | zero => omega
  | succ f ih =>
    have hd := digitChar_isDigit (n % 10) (Nat.mod_lt _ (by norm_num))
    simp only [Nat.toDigitsCore]
    split_ifs with h0
    · refine ⟨by simpa using hd.1, by simp, ?_⟩
      simp only [decimal_value, List.foldl_cons, List.foldl_nil, hd.2]
      omega
    · rw [toDigitsCore_append]
      obtain ⟨h1, h2, h3⟩ := ih (n / 10) (by omega)
      refine ⟨?_, by simp, ?_⟩
      · intro c hc
        rcases List.mem_append.mp hc with hc | hc
        · exact h1 c hc
        · simp only [List.mem_singleton] at hc
          rw [hc]; exact hd.1
      · simp only [decimal_value, List.foldl_append, List.foldl_cons, List.foldl_nil] at h3 ⊢
        rw [h3, hd.2]
        omega

theorem repr_spec (n : Nat) :
    (∀ c ∈ (Nat.repr n).toList, c.isDigit = true) ∧ (Nat.repr n).toList ≠ [] ∧
    decimal_value (Nat.repr n).toList = n := by
  have h := toDigitsCore_spec (n + 1) n (by omega)
  simpa [Nat.repr, Nat.toDigits, List.asString] using h

theorem repr_count (n : Nat) (c : Char) (hc : c.isDigit = false) :
    (Nat.repr n).toList.count c = 0 := by
  rw [List.count_eq_zero]
  intro hmem
  rw [(repr_spec n).1 c hmem] at hc
  exact absurd hc (by decide)

/-- C6: for every four values, `print_result_non_interactive` appends to the
stream exactly the text `{ "elapsed": E, "user": U, "sys": S, "mem_max": M }`,
where each of `E`, `U`, `S`, `M` is a non-empty text of decimal digits that
denotes the value; the text holds no newline (one line, nothing after the
closing brace), and its four colons and three commas are those of the four
fields, in the order elapsed, user, sys, mem_max. -/
theorem C6_non_interactive_text (o : String) (elapsed user sys mem_max : Nat) :
    print_result_non_interactive o elapsed user sys mem_max =
      o ++ non_interactive_format (Nat.repr elapsed) (Nat.repr user) (Nat.repr sys)
        (Nat.repr mem_max) ∧
    (∀ v ∈ [elapsed, user, sys, mem_max],
      (∀ c ∈ (Nat.repr v).toList, c.isDigit = true) ∧ (Nat.repr v).toList ≠ [] ∧
      decimal_value (Nat.repr v).toList = v) ∧
    (non_interactive_format (Nat.repr elapsed) (Nat.repr user) (Nat.repr sys)
      (Nat.repr mem_max)).toList.count '\n' = 0 ∧
    (non_interactive_format (Nat.repr elapsed) (Nat.repr user) (Nat.repr sys)
      (Nat.repr mem_max)).toList.count ':' = 4 ∧
    (non_interactive_format (Nat.repr elapsed) (Nat.repr user) (Nat.repr sys)
      (Nat.repr mem_max)).toList.count ',' = 3 ∧
    (non_interactive_format (Nat.repr elapsed) (Nat.repr user) (Nat.repr sys)
      (Nat.repr mem_max)).toList.getLast? = some '\x7d' := by
  have hn : ∀ v, (Nat.repr v).data.count '\n' = 0 := fun v => repr_count v '\n' (by decide)
  have hc : ∀ v, (Nat.repr v).data.count ':' = 0 := fun v => repr_count v ':' (by decide)
  have hm : ∀ v, (Nat.repr v).data.count ',' = 0 := fun v => repr_count v ',' (by decide)
  refine ⟨?_, ?_, ?_, ?_, ?_, ?_⟩
  · simp only [print_result_non_interactive, put_ull, non_interactive_format, String.append_assoc]
    rfl
  · intro v _
    exact repr_spec v
  · simp only [non_interactive_format, String.toList, String.data_append, List.count_append]
    simp only [hn]
    decide
  · simp only [non_interactive_format, String.toList, String.data_append, List.count_append]
    simp only [hc]
    decide
  · simp only [non_interactive_format, String.toList, String.data_append, List.count_append]
    simp only [hm]
    decide
  · simp only [non_interactive_format, String.toList, String.data_append]
    rw [List.getLast?_append]
    rfl


/-! ## Rounding to `long double` -/

theorem flog_aux_spec (b : Nat) (hb : 2 ≤ b) (fuel n : Nat) (h1 : 1 ≤ n) (hf : n ≤ fuel) :
    b ^ flog_aux b fuel n ≤ n ∧ n < b ^ (flog_aux b fuel n + 1) := by
  induction fuel generalizing n with
  | zero => omega
  | succ f ih =>
    simp only [flog_aux]
    split_ifs with hlt
    · simp only [pow_zero, zero_add, pow_one]
      exact ⟨h1, hlt⟩
    · have hq : 1 ≤ n / b := by
        rw [Nat.one_le_div_iff (by omega)]
        omega
      have hqf : n / b ≤ f := by
        have : n / b < n := Nat.div_lt_self (by omega) (by omega)
        omega
      obtain ⟨h2, h3⟩ := ih (n / b) hq hqf
      constructor
      · calc b ^ (flog_aux b f (n / b) + 1) = b ^ flog_aux b f (n / b) * b := pow_succ _ _
          _ ≤ (n / b) * b := Nat.mul_le_mul_right _ h2
          _ ≤ n := Nat.div_mul_le_self n b
      · have h4 : n / b + 1 ≤ b ^ (flog_aux b f (n / b) + 1) := h3
        calc n < (n / b + 1) * b := by
              have := Nat.div_add_mod n b
              have := Nat.mod_lt n (show b > 0 by omega)
              nlinarith
          _ ≤ b ^ (flog_aux b f (n / b) + 1) * b := Nat.mul_le_mul_right _ h4
          _ = b ^ (flog_aux b f (n / b) + 1 + 1) := (pow_succ _ _).symm

theorem flog_spec (b : Nat) (hb : 2 ≤ b) (n : Nat) (h1 : 1 ≤ n) :
    b ^ flog b n ≤ n ∧ n < b ^ (flog b n + 1) :=
  flog_aux_spec b hb n n h1 (le_refl n)

theorem ilog_spec (b : Nat) (hb : 2 ≤ b) (q : ℚ) (hq : 0 < q) :
    (b : ℚ) ^ ilog b q ≤ q ∧ q < (b : ℚ) ^ (ilog b q + 1) := by
  have hb0 : (0 : ℚ) < b := by exact_mod_cast (show 0 < b by omega)
  have hnum : 0 < q.num := Rat.num_pos.mpr hq
  have hden : 0 < q.den := q.den_pos
  obtain ⟨n, hn⟩ : ∃ n : ℕ, q.num = n := ⟨q.num.natAbs, by omega⟩
  have hn1 : 1 ≤ n := by omega
  have hqe : q * (q.den : ℚ) = (n : ℚ) := by
    have := Rat.mul_den_eq_num q
    rw [hn] at this
    exact_mod_cast this
  obtain ⟨ha1, ha2⟩ := flog_spec b hb n hn1
  obtain ⟨hd1, hd2⟩ := flog_spec b hb q.den hden
  have hnat : q.num.natAbs = n := by omega
  have ha1q : (b : ℚ) ^ flog b n ≤ n := by exact_mod_cast ha1
  have ha2q : (n : ℚ) < (b : ℚ) ^ (flog b n + 1) := by exact_mod_cast ha2
  have hd1q : (b : ℚ) ^ flog b q.den ≤ q.den := by exact_mod_cast hd1
  have hd2q : (q.den : ℚ) < (b : ℚ) ^ (flog b q.den + 1) := by exact_mod_cast hd2
  have hpd : (0 : ℚ) < (b : ℚ) ^ flog b q.den := pow_pos hb0 _
  -- the two bounds on the quotient
  have hup : q < (b : ℚ) ^ (((flog b n : ℤ) - (flog b q.den : ℤ)) + 1) := by
    rw [show ((flog b n : ℤ) - (flog b q.den : ℤ)) + 1 =
      ((flog b n + 1 : ℕ) : ℤ) - ((flog b q.den : ℕ) : ℤ) by push_cast; ring]
    rw [zpow_sub₀ (ne_of_gt hb0), zpow_natCast, zpow_natCast, lt_div_iff₀ hpd]
    calc q * (b : ℚ) ^ flog b q.den ≤ q * q.den := mul_le_mul_of_nonneg_left hd1q hq.le
      _ = n := hqe
      _ < (b : ℚ) ^ (flog b n + 1) := ha2q
  have hlo : (b : ℚ) ^ (((flog b n : ℤ) - (flog b q.den : ℤ)) - 1) < q := by
    rw [show ((flog b n : ℤ) - (flog b q.den : ℤ)) - 1 =
      ((flog b n : ℕ) : ℤ) - ((flog b q.den + 1 : ℕ) : ℤ) by push_cast; ring]
    rw [zpow_sub₀ (ne_of_gt hb0), zpow_natCast, zpow_natCast, div_lt_iff₀ (pow_pos hb0 _)]
    calc (b : ℚ) ^ flog b n ≤ n := ha1q
      _ = q * q.den := hqe.symm
      _ < q * (b : ℚ) ^ (flog b q.den + 1) := mul_lt_mul_of_pos_left hd2q hq
  unfold ilog
  simp only [hnat]
  split_ifs with hc
  · exact ⟨hc, hup⟩
  · constructor
    · exact le_of_lt hlo
    · simp only [sub_add_cancel]
      exact lt_of_not_le hc

theorem ilog_unique (b : Nat) (hb : 2 ≤ b) (q : ℚ) (hq : 0 < q) (e : ℤ)
    (h1 : (b : ℚ) ^ e ≤ q) (h2 : q < (b : ℚ) ^ (e + 1)) : ilog b q = e := by
  have hb1 : (1 : ℚ) < b := by exact_mod_cast (show 1 < b by omega)
  obtain ⟨h3, h4⟩ := ilog_spec b hb q hq
  have h5 : e < ilog b q + 1 := (zpow_lt_zpow_iff_right₀ hb1).mp (lt_of_le_of_lt h1 h4)
  have h6 : ilog b q < e + 1 := (zpow_lt_zpow_iff_right₀ hb1).mp (lt_of_le_of_lt h3 h2)
  omega

theorem round_even_near (q : ℚ) :
    (round_even q : ℚ) - q ≤ 1 / 2 ∧ q - (round_even q : ℚ) ≤ 1 / 2 := by
  have h1 := Int.floor_le q
  have h2 := Int.lt_floor_add_one q
  unfold round_even
  simp only
  split_ifs with ha hb hc
  · constructor <;> linarith
  · push_cast; constructor <;> linarith
  · constructor <;> linarith
  · push_cast; constructor <;> linarith

theorem round_even_eq (q : ℚ) (N : ℤ) (h1 : (N : ℚ) - q < 1 / 2) (h2 : q - (N : ℚ) < 1 / 2) :
    round_even q = N := by
  obtain ⟨h3, h4⟩ := round_even_near q
  have h5 : ((round_even q - N : ℤ) : ℚ) < 1 := by push_cast; linarith
  have h6 : (-1 : ℚ) < ((round_even q - N : ℤ) : ℚ) := by push_cast; linarith
  have h7 : round_even q - N < 1 := by exact_mod_cast h5
  have h8 : -1 < round_even q - N := by exact_mod_cast h6
  omega

theorem round_even_nonneg (q : ℚ) (h : 0 ≤ q) : 0 ≤ round_even q := by
  have h1 : (0 : ℤ) ≤ ⌊q⌋ := Int.floor_nonneg.mpr h
  unfold round_even
  simp only
  split_ifs <;> omega


theorem fl_pos_bounds (p : Nat) (q : ℚ) (hq : 0 < q) :
    q * (1 - (1 / 2 : ℚ) ^ p) ≤ fl p q ∧ fl p q ≤ q * (1 + (1 / 2 : ℚ) ^ p) := by
  obtain ⟨h1, h2⟩ := ilog_spec 2 (le_refl 2) |q| (abs_pos.mpr (ne_of_gt hq))
  have habs : |q| = q := abs_of_pos hq
  rw [habs] at h1 h2
  unfold fl
  simp only [ne_of_gt hq, if_false, not_lt.mpr hq.le, habs, one_mul]
  set e := ilog 2 q with he
  have hulp : (0 : ℚ) < 2 ^ (e + 1 - (p : ℤ)) := zpow_pos (by norm_num) _
  obtain ⟨h3, h4⟩ := round_even_near (q / 2 ^ (e + 1 - (p : ℤ)))
  -- half an ulp is at most q * 2^-p
  have hhalf : (2 : ℚ) ^ (e + 1 - (p : ℤ)) * (1 / 2) ≤ q * (1 / 2 : ℚ) ^ p := by
    have : (2 : ℚ) ^ (e + 1 - (p : ℤ)) = 2 ^ e * 2 * (1 / 2 : ℚ) ^ p := by
      rw [zpow_sub₀ (by norm_num), zpow_add₀ (by norm_num), zpow_one, zpow_natCast]
      rw [one_div, inv_pow]
      field_simp
    rw [this]
    have hp : (0 : ℚ) < (1 / 2 : ℚ) ^ p := by positivity
    have : (2 : ℚ) ^ e * (1 / 2 : ℚ) ^ p ≤ q * (1 / 2 : ℚ) ^ p :=
      mul_le_mul_of_nonneg_right (by exact_mod_cast h1) hp.le
    linarith
  have h5 : (round_even (q / 2 ^ (e + 1 - (p : ℤ))) : ℚ) * 2 ^ (e + 1 - (p : ℤ)) - q
      ≤ 2 ^ (e + 1 - (p : ℤ)) * (1 / 2) := by
    have := mul_le_mul_of_nonneg_right h3 hulp.le
    rw [sub_mul, div_mul_cancel₀ _ (ne_of_gt hulp)] at this
    linarith
  have h6 : q - (round_even (q / 2 ^ (e + 1 - (p : ℤ))) : ℚ) * 2 ^ (e + 1 - (p : ℤ))
      ≤ 2 ^ (e + 1 - (p : ℤ)) * (1 / 2) := by
    have := mul_le_mul_of_nonneg_right h4 hulp.le
    rw [sub_mul, div_mul_cancel₀ _ (ne_of_gt hulp)] at this
    linarith
  constructor <;> linarith
theorem sci6_plain (v : ℚ) (X : ℤ) (N : ℕ) (hv1 : (10 : ℚ) ^ X ≤ v) (hv2 : v < (10 : ℚ) ^ (X + 1))
    (hN : N < 10 ^ 6) (h1 : (N : ℚ) - v / (10 : ℚ) ^ (X - 5) < 1 / 2)
    (h2 : v / (10 : ℚ) ^ (X - 5) - (N : ℚ) < 1 / 2) : sci6 v = (N, X) := by
  have hv : 0 < v := lt_of_lt_of_le (zpow_pos (by norm_num) _) hv1
  have hX : ilog 10 v = X := ilog_unique 10 (by norm_num) v hv X (by exact_mod_cast hv1)
    (by exact_mod_cast hv2)
  have hr : round_even (v / (10 : ℚ) ^ (X - 5)) = (N : ℤ) :=
    round_even_eq _ _ (by exact_mod_cast h1) (by exact_mod_cast h2)
  unfold sci6
  simp only [hX, hr, Int.toNat_ofNat]
  rw [if_neg (by omega)]

theorem sci6_carry (v : ℚ) (X : ℤ) (hv1 : (10 : ℚ) ^ X ≤ v) (hv2 : v < (10 : ℚ) ^ (X + 1))
    (h1 : (10 : ℚ) ^ 6 - v / (10 : ℚ) ^ (X - 5) < 1 / 2)
    (h2 : v / (10 : ℚ) ^ (X - 5) - (10 : ℚ) ^ 6 < 1 / 2) : sci6 v = (10 ^ 5, X + 1) := by
  have hv : 0 < v := lt_of_lt_of_le (zpow_pos (by norm_num) _) hv1
  have hX : ilog 10 v = X := ilog_unique 10 (by norm_num) v hv X (by exact_mod_cast hv1)
    (by exact_mod_cast hv2)
  have hr : round_even (v / (10 : ℚ) ^ (X - 5)) = ((10 ^ 6 : ℕ) : ℤ) :=
    round_even_eq _ _ (by push_cast; exact h1) (by push_cast; exact h2)
  unfold sci6
  simp only [hX, hr, Int.toNat_ofNat]
  simp

theorem sci6_near_milli (k : ℕ) (hk1 : 1 ≤ k) (hk : k < 10 ^ 6) (v : ℚ)
    (h1 : (k : ℚ) / 1000 * (1 - (1 / 2) ^ 53) ≤ v)
    (h2 : v ≤ (k : ℚ) / 1000 * (1 + (1 / 2) ^ 53)) :
    sci6_value v = (k : ℚ) / 1000 ∧ -3 ≤ (sci6 v).2 ∧ (sci6 v).2 ≤ 2 ∧
      10 ^ 5 ≤ (sci6 v).1 ∧ (sci6 v).1 < 10 ^ 6 := by
  obtain ⟨hj1, hj2⟩ := flog_spec 10 (by norm_num) k hk1
  generalize flog 10 k = j at hj1 hj2
  have hj : j ≤ 5 := by
    by_contra hcon
    have h6 : 6 ≤ j := by omega
    have : 10 ^ 6 ≤ 10 ^ j := Nat.pow_le_pow_right (by norm_num) h6
    omega
  have hkq1 : (10 : ℚ) ^ j ≤ k := by exact_mod_cast hj1
  have hkq2 : (k : ℚ) + 1 ≤ (10 : ℚ) ^ (j + 1) := by exact_mod_cast hj2
  norm_num at h1 h2
  by_cases hA : (10 : ℚ) ^ ((j : ℤ) - 3) ≤ v
  · -- the value keeps the decimal exponent of k / 1000
    have hs : sci6 v = (k * 10 ^ (5 - j), (j : ℤ) - 3) := by
      apply sci6_plain
      · exact hA
      · interval_cases j <;> norm_num1 at hkq1 hkq2 <;> norm_num <;> linarith
      · interval_cases j <;> omega
      · interval_cases j <;> norm_num1 at hkq1 hkq2 <;> norm_num <;> linarith
      · interval_cases j <;> norm_num1 at hkq1 hkq2 <;> norm_num <;> linarith
    simp only [sci6_value, hs]
    refine ⟨?_, by omega, by omega, ?_, ?_⟩
    · interval_cases j <;> norm_num <;> ring
    · interval_cases j <;> omega
    · interval_cases j <;> omega
  · -- the value fell just below a power of ten: six nines round up to it
    push_neg at hA
    have hs : sci6 v = (10 ^ 5, ((j : ℤ) - 4) + 1) := by
      apply sci6_carry
      · interval_cases j <;> norm_num1 at hkq1 hkq2 <;> norm_num <;> linarith
      · have : ((j : ℤ) - 4) + 1 = (j : ℤ) - 3 := by ring
        rw [this]; exact hA
      · interval_cases j <;> norm_num1 at hkq1 hkq2 <;> norm_num at hA ⊢ <;> linarith
      · interval_cases j <;> norm_num1 at hkq1 hkq2 <;> norm_num at hA ⊢ <;> linarith
    have hk10 : k = 10 ^ j := by
      by_contra hne
      have h3 : 10 ^ j + 1 ≤ k := by omega
      have h4 : (10 : ℚ) ^ j + 1 ≤ k := by exact_mod_cast h3
      interval_cases j <;> norm_num1 at h4 <;> norm_num at hA <;> linarith
    simp only [sci6_value, hs]
    refine ⟨?_, by omega, by omega, by norm_num, by norm_num⟩
    subst hk10
    interval_cases j <;> norm_num
/-! ## The text of a `long double` -/

theorem decimal_value_foldl (a : Nat) (l : List Char) :
    l.foldl (fun a c => 10 * a + (c.toNat - 48)) a = a * 10 ^ l.length + decimal_value l := by
  induction l generalizing a with
  | nil => simp [decimal_value]
  | cons c t ih =>
    simp only [decimal_value, List.foldl_cons, List.length_cons]
    rw [ih, ih (10 * 0 + (c.toNat - 48))]
    ring

theorem decimal_value_append (a b : List Char) :
    decimal_value (a ++ b) = decimal_value a * 10 ^ b.length + decimal_value b := by
  simp only [decimal_value, List.foldl_append]
  rw [decimal_value_foldl]
  rfl

theorem decimal_value_zeros (zs : List Char) (h : ∀ c ∈ zs, c = '0') : decimal_value zs = 0 := by
  induction zs with
  | nil => rfl
  | cons c t ih =>
    have hc : c = '0' := h c (List.mem_cons_self _ _)
    have ht := ih (fun x hx => h x (List.mem_cons_of_mem _ hx))
    have := decimal_value_append [c] t
    simp only [List.singleton_append] at this
    rw [this, ht, hc]
    simp [decimal_value]

theorem digits_fixed_spec (k n : Nat) :
    (digits_fixed k n).length = k ∧ (∀ c ∈ digits_fixed k n, c.isDigit = true) ∧
    decimal_value (digits_fixed k n) = n % 10 ^ k := by
  induction k generalizing n with
  | zero => simp [digits_fixed, decimal_value, Nat.mod_one]
  | succ k ih =>
    obtain ⟨h1, h2, h3⟩ := ih (n / 10)
    have hd := digitChar_isDigit (n % 10) (Nat.mod_lt _ (by norm_num))
    simp only [digits_fixed]
    refine ⟨by simp [h1], ?_, ?_⟩
    · intro c hc
      rcases List.mem_append.mp hc with hc | hc
      · exact h2 c hc
      · simp only [List.mem_singleton] at hc
        rw [hc]; exact hd.1
    · rw [decimal_value_append, h3]
      simp only [List.length_singleton, pow_one, decimal_value, List.foldl_cons, List.foldl_nil,
        hd.2]
      have : n % 10 ^ (k + 1) = (n / 10 % 10 ^ k) * 10 + n % 10 := by
        rw [pow_succ, mul_comm (10 ^ k) 10, Nat.mod_mul, Nat.mul_comm]
        omega
      omega

theorem strip_zeros_spec (l : List Char) :
    ∃ zs, (∀ c ∈ zs, c = '0') ∧ l = strip_zeros l ++ zs := by
  refine ⟨(l.reverse.takeWhile (fun c => c == '0')).reverse, ?_, ?_⟩
  · intro c hc
    have := List.mem_takeWhile_imp (List.mem_reverse.mp hc)
    simpa using this
  · unfold strip_zeros
    rw [← List.reverse_append, List.takeWhile_append_dropWhile, List.reverse_reverse]

theorem strip_zeros_value (l : List Char) :
    (decimal_value (strip_zeros l) : ℚ) / (10 : ℚ) ^ (strip_zeros l).length =
      (decimal_value l : ℚ) / (10 : ℚ) ^ l.length := by
  obtain ⟨zs, hz, hl⟩ := strip_zeros_spec l
  have h0 := decimal_value_zeros zs hz
  have hv : decimal_value l = decimal_value (strip_zeros l) * 10 ^ zs.length := by
    conv_lhs => rw [hl]
    rw [decimal_value_append, h0, add_zero]
  have hlen : l.length = (strip_zeros l).length + zs.length := by
    conv_lhs => rw [hl]
    simp
  rw [hv, hlen, pow_add]
  push_cast
  field_simp
  ring

theorem strip_zeros_mem (l : List Char) (c : Char) (hc : c ∈ strip_zeros l) : c ∈ l := by
  unfold strip_zeros at hc
  have := (List.dropWhile_suffix _).subset (List.mem_reverse.mp hc)
  exact List.mem_reverse.mp this
theorem denote_parts (ipd frac : List Char) (h : ∀ c ∈ ipd, c.isDigit = true) :
    denote (ipd ++ (if frac = [] then [] else '.' :: frac)) =
      (decimal_value ipd : ℚ) + (decimal_value frac : ℚ) / (10 : ℚ) ^ frac.length := by
  have hp : ∀ c ∈ ipd, (fun c => c != '.') c = true := by
    intro c hc
    have hd := h c hc
    simp only [bne_iff_ne, ne_eq]
    intro hdot
    rw [hdot] at hd
    exact absurd hd (by decide)
  unfold denote
  by_cases hf : frac = []
  · simp only [hf, if_true, List.append_nil]
    rw [List.takeWhile_eq_self_iff.mpr hp, List.dropWhile_eq_nil_iff.mpr hp]
    simp [decimal_value]
  · simp only [hf, if_false]
    rw [List.takeWhile_append_of_pos hp, List.dropWhile_append_of_pos hp]
    simp [List.takeWhile, List.dropWhile]

theorem fmt_g6_fixed (v : ℚ) (hv : 0 < v) (hX1 : -4 ≤ (sci6 v).2) (hX2 : (sci6 v).2 ≤ 5) :
    denote (fmt_g6 v).toList = sci6_value v := by
  have habs : |v| = v := abs_of_pos hv
  obtain ⟨k, hk⟩ : ∃ k : ℕ, (5 - (sci6 v).2) = (k : ℤ) := ⟨(5 - (sci6 v).2).toNat, by omega⟩
  have hk' : (5 - (sci6 v).2).toNat = k := by omega
  unfold fmt_g6
  simp only [ne_of_gt hv, if_false, habs, not_lt.mpr hv.le, hk']
  rw [if_pos ⟨hX1, by omega⟩]
  simp only [String.toList, String.data_append]
  have hfrac : ∀ frac : List Char,
      (if frac = [] then "" else "." ++ frac.asString).data =
        (if frac = [] then [] else '.' :: frac) := by
    intro frac
    split_ifs
    · rfl
    · rfl
  rw [hfrac]
  have hdig : ∀ c ∈ (Nat.repr ((sci6 v).1 / 10 ^ k)).data, c.isDigit = true :=
    (repr_spec _).1
  rw [List.nil_append, denote_parts _ _ hdig]
  have h1 : decimal_value (Nat.repr ((sci6 v).1 / 10 ^ k)).data = (sci6 v).1 / 10 ^ k :=
    (repr_spec _).2.2
  rw [h1, strip_zeros_value]
  obtain ⟨h2, _, h3⟩ := digits_fixed_spec k ((sci6 v).1 % 10 ^ k)
  rw [h2, h3, Nat.mod_mod]
  unfold sci6_value
  have hX : (sci6 v).2 - 5 = -(k : ℤ) := by omega
  rw [hX, zpow_neg, zpow_natCast]
  have hdm := Nat.div_add_mod (sci6 v).1 (10 ^ k)
  have hpos : (0 : ℚ) < (10 : ℚ) ^ k := by positivity
  have hq : ((sci6 v).1 : ℚ) =
      (10 : ℚ) ^ k * (((sci6 v).1 / 10 ^ k : ℕ) : ℚ) + (((sci6 v).1 % 10 ^ k : ℕ) : ℚ) := by
    exact_mod_cast hdm.symm
  rw [hq]
  field_simp
  ring
theorem fl_nonneg (p : Nat) (q : ℚ) (hq : 0 ≤ q) : 0 ≤ fl p q := by
  rcases eq_or_lt_of_le hq with h | h
  · rw [← h]; simp [fl]
  · have hb := (fl_pos_bounds p q h).1
    have h1 : (1 / 2 : ℚ) ^ p ≤ 1 := pow_le_one₀ (by norm_num) (by norm_num)
    have : 0 ≤ q * (1 - (1 / 2 : ℚ) ^ p) := mul_nonneg hq (by linarith)
    linarith

theorem half_pow_le (p : Nat) (hp : 53 ≤ p) : (1 / 2 : ℚ) ^ p ≤ (1 / 2) ^ 53 :=
  pow_le_pow_of_le_one (by norm_num) (by norm_num) hp

theorem roundl_nonneg (y : ℚ) (hy : 0 ≤ y) :
    roundl y = ((⌊y + 1 / 2⌋.toNat : ℕ) : ℚ) := by
  have h1 : (0 : ℤ) ≤ ⌊y + 1 / 2⌋ := Int.floor_nonneg.mpr (by linarith)
  unfold roundl
  rw [if_pos hy]
  have : ((⌊y + 1 / 2⌋.toNat : ℕ) : ℤ) = ⌊y + 1 / 2⌋ := Int.toNat_of_nonneg h1
  exact_mod_cast congrArg (fun z : ℤ => (z : ℚ)) this.symm

/-- The integer `normalize` divides by 1000: the rounded product, rounded to
the nearest integer, ties away from zero. -/
theorem normalize_eq (p : Nat) (x : ℚ) (hx : 0 ≤ x) :
    normalize p x = fl p (((⌊fl p (x * 1000) + 1 / 2⌋.toNat : ℕ) : ℚ) / 1000) := by
  unfold normalize DECIMAL_PLACES_ROUNDER
  rw [roundl_nonneg _ (fl_nonneg p _ (by positivity))]

theorem fmt_g6_milli (p : Nat) (hp : 53 ≤ p) (K : ℕ) (hK : K < 10 ^ 6) :
    denote (fmt_g6 (fl p ((K : ℚ) / 1000))).toList = (K : ℚ) / 1000 := by
  rcases Nat.eq_zero_or_pos K with h0 | hpos
  · subst h0
    have : fl p (((0 : ℕ) : ℚ) / 1000) = 0 := by simp [fl]
    rw [this]
    simp [fmt_g6, denote, decimal_value]
  · have hq : (0 : ℚ) < (K : ℚ) / 1000 := by positivity
    obtain ⟨h1, h2⟩ := fl_pos_bounds p _ hq
    have he := half_pow_le p hp
    have h1' : (K : ℚ) / 1000 * (1 - (1 / 2) ^ 53) ≤ fl p ((K : ℚ) / 1000) := by
      have : (K : ℚ) / 1000 * (1 - (1 / 2) ^ 53) ≤ (K : ℚ) / 1000 * (1 - (1 / 2 : ℚ) ^ p) :=
        mul_le_mul_of_nonneg_left (by linarith) hq.le
      linarith
    have h2' : fl p ((K : ℚ) / 1000) ≤ (K : ℚ) / 1000 * (1 + (1 / 2) ^ 53) := by
      have : (K : ℚ) / 1000 * (1 + (1 / 2 : ℚ) ^ p) ≤ (K : ℚ) / 1000 * (1 + (1 / 2) ^ 53) :=
        mul_le_mul_of_nonneg_left (by linarith) hq.le
      linarith
    obtain ⟨hv, hX1, hX2, _, _⟩ := sci6_near_milli K hpos hK _ h1' h2'
    have hvpos : 0 < fl p ((K : ℚ) / 1000) := by
      have : (0 : ℚ) < (K : ℚ) / 1000 * (1 - (1 / 2) ^ 53) := by
        apply mul_pos hq; norm_num
      linarith
    rw [fmt_g6_fixed _ hvpos (by omega) (by omega), hv]
theorem fl_step (p : Nat) (hp : 53 ≤ p) (w y lo hi : ℚ) (hw : 0 ≤ w) (hlo : 0 ≤ lo)
    (h1 : w * lo ≤ y) (h2 : y ≤ w * hi) :
    w * (lo * (1 - (1 / 2) ^ 53)) ≤ fl p y ∧ fl p y ≤ w * (hi * (1 + (1 / 2) ^ 53)) := by
  have he := half_pow_le p hp
  have he0 : (0 : ℚ) ≤ (1 / 2 : ℚ) ^ p := by positivity
  have hy : 0 ≤ y := le_trans (mul_nonneg hw hlo) h1
  have hwhi : 0 ≤ w * hi := le_trans hy h2
  rcases eq_or_lt_of_le hy with h0 | hpos
  · have hfl : fl p y = 0 := by rw [← h0]; simp [fl]
    rw [hfl]
    constructor
    · have : w * lo ≤ 0 := by rw [h0]; exact h1
      have h53 : (0 : ℚ) ≤ 1 - (1 / 2) ^ 53 := by norm_num
      nlinarith [mul_nonneg hw hlo]
    · have h53 : (0 : ℚ) ≤ 1 + (1 / 2) ^ 53 := by norm_num
      nlinarith
  · obtain ⟨h3, h4⟩ := fl_pos_bounds p y hpos
    constructor
    · have : w * lo * (1 - (1 / 2) ^ 53) ≤ y * (1 - (1 / 2 : ℚ) ^ p) := by
        have ha : w * lo * (1 - (1 / 2) ^ 53) ≤ w * lo * (1 - (1 / 2 : ℚ) ^ p) :=
          mul_le_mul_of_nonneg_left (by linarith) (mul_nonneg hw hlo)
        have hb : w * lo * (1 - (1 / 2 : ℚ) ^ p) ≤ y * (1 - (1 / 2 : ℚ) ^ p) :=
          mul_le_mul_of_nonneg_right h1 (by linarith [show (1 / 2 : ℚ) ^ 53 ≤ 1 by norm_num])
        linarith
      linarith
    · have : y * (1 + (1 / 2 : ℚ) ^ p) ≤ w * hi * (1 + (1 / 2) ^ 53) := by
        have ha : y * (1 + (1 / 2 : ℚ) ^ p) ≤ w * hi * (1 + (1 / 2 : ℚ) ^ p) :=
          mul_le_mul_of_nonneg_right h2 (by linarith)
        have hb : w * hi * (1 + (1 / 2 : ℚ) ^ p) ≤ w * hi * (1 + (1 / 2) ^ 53) :=
          mul_le_mul_of_nonneg_left (by linarith) hwhi
        linarith
      linarith

/-- Rounding to the nearest integer is not disturbed by an error smaller than
the distance to the nearest tie: for the exact value `A / B - 1 / 2`, no tie. -/
theorem floor_robust (A B : ℕ) (hB : 0 < B) (hnt : A % B ≠ 0) (y : ℚ)
    (h1 : ((A : ℚ) / B - 1 / 2 - y) * B < 1) (h2 : (y - ((A : ℚ) / B - 1 / 2)) * B < 1) :
    ⌊y + 1 / 2⌋.toNat = A / B := by
  have hBq : (0 : ℚ) < B := by exact_mod_cast hB
  have hdm := Nat.div_add_mod A B
  have hr1 : 1 ≤ A % B := by omega
  have hr2 : A % B + 1 ≤ B := Nat.mod_lt A hB
  have hA : (A : ℚ) = (B : ℚ) * ((A / B : ℕ) : ℚ) + ((A % B : ℕ) : ℚ) := by exact_mod_cast hdm.symm
  have hr1q : (1 : ℚ) ≤ ((A % B : ℕ) : ℚ) := by exact_mod_cast hr1
  have hr2q : ((A % B : ℕ) : ℚ) + 1 ≤ B := by exact_mod_cast hr2
  have hAB : (A : ℚ) / B = ((A / B : ℕ) : ℚ) + ((A % B : ℕ) : ℚ) / B := by
    rw [div_eq_iff (ne_of_gt hBq), add_mul, div_mul_cancel₀ _ (ne_of_gt hBq)]
    linarith
  have hfrac1 : (1 : ℚ) / B ≤ ((A % B : ℕ) : ℚ) / B := by
    apply div_le_div_of_nonneg_right hr1q hBq.le
  have hfrac2 : ((A % B : ℕ) : ℚ) / B ≤ 1 - 1 / B := by
    rw [div_le_iff₀ hBq]
    have : (1 - 1 / (B : ℚ)) * B = B - 1 := by field_simp
    rw [this]; linarith
  have h1' : (A : ℚ) / B - 1 / 2 - y < 1 / B := by
    rw [lt_div_iff₀ hBq]; exact h1
  have h2' : y - ((A : ℚ) / B - 1 / 2) < 1 / B := by
    rw [lt_div_iff₀ hBq]; exact h2
  have hfl : ⌊y + 1 / 2⌋ = ((A / B : ℕ) : ℤ) := by
    rw [Int.floor_eq_iff, Int.cast_natCast]
    constructor
    · linarith
    · linarith
  rw [hfl]
  exact Int.toNat_natCast _
theorem normalize_exact_eq (a b : ℕ) (hb : 0 < b) :
    normalize_exact ((a : ℚ) / b) = (((2000 * a + b) / (2 * b) : ℕ) : ℚ) / 1000 := by
  have hbq : (0 : ℚ) < b := by exact_mod_cast hb
  unfold normalize_exact
  rw [roundl_nonneg _ (by positivity)]
  congr 2
  have h : (a : ℚ) / b * 1000 + 1 / 2 = (((2000 * a + b : ℕ) : ℤ) : ℚ) / ((2 * b : ℕ) : ℚ) := by
    push_cast
    field_simp
    ring
  rw [h, Rat.floor_intCast_div_natCast]
  have : ((2000 * a + b : ℕ) : ℤ) / ((2 * b : ℕ) : ℤ) = (((2000 * a + b) / (2 * b) : ℕ) : ℤ) := by
    norm_cast
  rw [this]
  exact Int.toNat_natCast _

theorem milli_exact (p : Nat) (hp : 53 ≤ p) (a b : ℕ) (hb : 0 < b) (x lo hi c : ℚ)
    (hlo : 0 ≤ lo) (h1 : (a : ℚ) / b * lo ≤ x) (h2 : x ≤ (a : ℚ) / b * hi)
    (hc1 : 1 - c ≤ lo * (1 - (1 / 2) ^ 53)) (hc2 : hi * (1 + (1 / 2) ^ 53) ≤ 1 + c)
    (hmag : 2000 * (a : ℚ) * c < 1) (hnt : (2000 * a + b) % (2 * b) ≠ 0) :
    milli p x = (2000 * a + b) / (2 * b) := by
  have hbq : (0 : ℚ) < b := by exact_mod_cast hb
  have hw : (0 : ℚ) ≤ (a : ℚ) / b * 1000 := by positivity
  obtain ⟨h3, h4⟩ := fl_step p hp ((a : ℚ) / b * 1000) (x * 1000) lo hi hw hlo
    (by nlinarith) (by nlinarith)
  have h5 : (a : ℚ) / b * 1000 * (1 - c) ≤ fl p (x * 1000) :=
    le_trans (mul_le_mul_of_nonneg_left hc1 hw) h3
  have h6 : fl p (x * 1000) ≤ (a : ℚ) / b * 1000 * (1 + c) :=
    le_trans h4 (mul_le_mul_of_nonneg_left hc2 hw)
  have hab : (a : ℚ) / b * b = a := div_mul_cancel₀ _ (ne_of_gt hbq)
  unfold milli
  apply floor_robust (2000 * a + b) (2 * b) (by omega) hnt
  · push_cast
    have e1 : ((2000 * (a : ℚ) + b) / (2 * b) - 1 / 2 - fl p (x * 1000)) * (2 * b) =
        2 * (((a : ℚ) / b * 1000 - fl p (x * 1000)) * b) := by
      field_simp
      ring
    rw [e1]
    have : ((a : ℚ) / b * 1000 - fl p (x * 1000)) * b ≤ (a : ℚ) / b * 1000 * c * b :=
      mul_le_mul_of_nonneg_right (by linarith) hbq.le
    have e2 : (a : ℚ) / b * 1000 * c * b = 1000 * a * c := by
      calc (a : ℚ) / b * 1000 * c * b = ((a : ℚ) / b * b) * 1000 * c := by ring
        _ = 1000 * a * c := by rw [hab]; ring
    linarith
  · push_cast
    have e1 : (fl p (x * 1000) - ((2000 * (a : ℚ) + b) / (2 * b) - 1 / 2)) * (2 * b) =
        2 * ((fl p (x * 1000) - (a : ℚ) / b * 1000) * b) := by
      field_simp
      ring
    rw [e1]
    have : (fl p (x * 1000) - (a : ℚ) / b * 1000) * b ≤ (a : ℚ) / b * 1000 * c * b :=
      mul_le_mul_of_nonneg_right (by linarith) hbq.le
    have e2 : (a : ℚ) / b * 1000 * c * b = 1000 * a * c := by
      calc (a : ℚ) / b * 1000 * c * b = ((a : ℚ) / b * b) * 1000 * c := by ring
        _ = 1000 * a * c := by rw [hab]; ring
    linarith
theorem seconds_within (p : Nat) (hp : 53 ≤ p) (u : ℕ) :
    (u : ℚ) / 1000000 * ((1 - (1 / 2) ^ 53) * (1 - (1 / 2) ^ 53)) ≤ seconds p u ∧
    seconds p u ≤ (u : ℚ) / 1000000 * ((1 + (1 / 2) ^ 53) * (1 + (1 / 2) ^ 53)) := by
  have hu : (0 : ℚ) ≤ u := Nat.cast_nonneg u
  obtain ⟨h1, h2⟩ := fl_step p hp (u : ℚ) (u : ℚ) 1 1 hu (by norm_num) (by linarith) (by linarith)
  unfold seconds MICROS_PER_SEC
  apply fl_step p hp _ _ _ _ (by positivity) (by norm_num)
  · rw [one_mul] at h1
    have := div_le_div_of_nonneg_right h1 (show (0 : ℚ) ≤ 1000000 by norm_num)
    push_cast
    calc (u : ℚ) / 1000000 * (1 - (1 / 2) ^ 53) = (u : ℚ) * (1 - (1 / 2) ^ 53) / 1000000 := by ring
      _ ≤ fl p u / 1000000 := this
  · rw [one_mul] at h2
    have := div_le_div_of_nonneg_right h2 (show (0 : ℚ) ≤ 1000000 by norm_num)
    push_cast
    calc fl p u / 1000000 ≤ (u : ℚ) * (1 + (1 / 2) ^ 53) / 1000000 := this
      _ = (u : ℚ) / 1000000 * (1 + (1 / 2) ^ 53) := by ring

theorem seconds_nonneg (p : Nat) (u : ℕ) : 0 ≤ seconds p u :=
  fl_nonneg p _ (div_nonneg (fl_nonneg p _ (Nat.cast_nonneg u)) (Nat.cast_nonneg _))

theorem cpu_seconds_within (p : Nat) (hp : 53 ≤ p) (u s : ℕ) :
    ((u + s : ℕ) : ℚ) / 1000000 *
        ((1 - (1 / 2) ^ 53) * (1 - (1 / 2) ^ 53) * (1 - (1 / 2) ^ 53)) ≤ cpu_seconds p u s ∧
    cpu_seconds p u s ≤ ((u + s : ℕ) : ℚ) / 1000000 *
        ((1 + (1 / 2) ^ 53) * (1 + (1 / 2) ^ 53) * (1 + (1 / 2) ^ 53)) := by
  obtain ⟨h1, h2⟩ := seconds_within p hp u
  obtain ⟨h3, h4⟩ := seconds_within p hp s
  unfold cpu_seconds
  apply fl_step p hp _ _ _ _ (by positivity) (by norm_num)
  · push_cast; linarith
  · push_cast; linarith

theorem cpu_seconds_nonneg (p : Nat) (u s : ℕ) : 0 ≤ cpu_seconds p u s :=
  fl_nonneg p _ (add_nonneg (seconds_nonneg p u) (seconds_nonneg p s))

theorem cpu_percent_nonneg (p : Nat) (e u s : ℕ) : 0 ≤ cpu_percent p e u s :=
  fl_nonneg p _ (div_nonneg (fl_nonneg p _ (mul_nonneg (by norm_num) (cpu_seconds_nonneg p u s)))
    (seconds_nonneg p e))

theorem cpu_percent_within (p : Nat) (hp : 53 ≤ p) (e u s : ℕ) (he : 0 < e) :
    ((100 * (u + s) : ℕ) : ℚ) / e *
        ((1 - (1 / 2) ^ 53) ^ 4 / (1 + (1 / 2) ^ 53) ^ 2 * (1 - (1 / 2) ^ 53)) ≤
      cpu_percent p e u s ∧
    cpu_percent p e u s ≤ ((100 * (u + s) : ℕ) : ℚ) / e *
        ((1 + (1 / 2) ^ 53) ^ 4 / (1 - (1 / 2) ^ 53) ^ 2 * (1 + (1 / 2) ^ 53)) := by
  have heq : (0 : ℚ) < e := by exact_mod_cast he
  obtain ⟨c1, c2⟩ := cpu_seconds_within p hp u s
  obtain ⟨e1, e2⟩ := seconds_within p hp e
  have hc0 := cpu_seconds_nonneg p u s
  have hw : (0 : ℚ) ≤ ((u + s : ℕ) : ℚ) / 1000000 := by positivity
  -- the product by 100
  obtain ⟨t1, t2⟩ := fl_step p hp (((u + s : ℕ) : ℚ) / 1000000 * 100) (100 * cpu_seconds p u s)
    ((1 - (1 / 2) ^ 53) * (1 - (1 / 2) ^ 53) * (1 - (1 / 2) ^ 53))
    ((1 + (1 / 2) ^ 53) * (1 + (1 / 2) ^ 53) * (1 + (1 / 2) ^ 53))
    (by positivity) (by norm_num) (by linarith) (by linarith)
  have hel : (0 : ℚ) < seconds p e :=
    lt_of_lt_of_le (mul_pos (by positivity) (by norm_num)) e1
  have ht0 : 0 ≤ fl p (100 * cpu_seconds p u s) := fl_nonneg p _ (by positivity)
  set T := fl p (100 * cpu_seconds p u s) with hT
  set L := seconds p e with hL
  set W : ℚ := ((u + s : ℕ) : ℚ) with hW
  have hW0 : 0 ≤ W := Nat.cast_nonneg _
  unfold cpu_percent
  rw [← hT, ← hL]
  apply fl_step p hp _ _ _ _ (by positivity) (by norm_num)
  · -- lower bound of the quotient
    rw [le_div_iff₀ hel]
    have hlo : ((100 * (u + s) : ℕ) : ℚ) / e *
        ((1 - (1 / 2) ^ 53) ^ 4 / (1 + (1 / 2) ^ 53) ^ 2) * L ≤
        ((100 * (u + s) : ℕ) : ℚ) / e * ((1 - (1 / 2) ^ 53) ^ 4 / (1 + (1 / 2) ^ 53) ^ 2) *
          ((e : ℚ) / 1000000 * ((1 + (1 / 2) ^ 53) * (1 + (1 / 2) ^ 53))) :=
      mul_le_mul_of_nonneg_left e2 (by positivity)
    have heq2 : ((100 * (u + s) : ℕ) : ℚ) / e * ((1 - (1 / 2) ^ 53) ^ 4 / (1 + (1 / 2) ^ 53) ^ 2) *
          ((e : ℚ) / 1000000 * ((1 + (1 / 2) ^ 53) * (1 + (1 / 2) ^ 53))) =
        W / 1000000 * 100 * (1 - (1 / 2) ^ 53) ^ 4 := by
      rw [hW]; push_cast; field_simp; ring
    have : W / 1000000 * 100 * (1 - (1 / 2) ^ 53) ^ 4 ≤ T := by
      have h53 : (0 : ℚ) ≤ 1 - (1 / 2) ^ 53 := by norm_num
      calc W / 1000000 * 100 * (1 - (1 / 2) ^ 53) ^ 4
          = W / 1000000 * 100 * ((1 - (1 / 2) ^ 53) * (1 - (1 / 2) ^ 53) * (1 - (1 / 2) ^ 53) *
              (1 - (1 / 2) ^ 53)) := by ring
        _ ≤ T := t1
    linarith
  · -- upper bound of the quotient
    rw [div_le_iff₀ hel]
    have hhi : ((100 * (u + s) : ℕ) : ℚ) / e *
        ((1 + (1 / 2) ^ 53) ^ 4 / (1 - (1 / 2) ^ 53) ^ 2) *
          ((e : ℚ) / 1000000 * ((1 - (1 / 2) ^ 53) * (1 - (1 / 2) ^ 53))) ≤
        ((100 * (u + s) : ℕ) : ℚ) / e * ((1 + (1 / 2) ^ 53) ^ 4 / (1 - (1 / 2) ^ 53) ^ 2) * L :=
      mul_le_mul_of_nonneg_left e1 (by positivity)
    have heq2 : ((100 * (u + s) : ℕ) : ℚ) / e * ((1 + (1 / 2) ^ 53) ^ 4 / (1 - (1 / 2) ^ 53) ^ 2) *
          ((e : ℚ) / 1000000 * ((1 - (1 / 2) ^ 53) * (1 - (1 / 2) ^ 53))) =
        W / 1000000 * 100 * (1 + (1 / 2) ^ 53) ^ 4 := by
      rw [hW]; push_cast; field_simp; ring
    have : T ≤ W / 1000000 * 100 * (1 + (1 / 2) ^ 53) ^ 4 := by
      calc T ≤ W / 1000000 * 100 * ((1 + (1 / 2) ^ 53) * (1 + (1 / 2) ^ 53) * (1 + (1 / 2) ^ 53) *
              (1 + (1 / 2) ^ 53)) := t2
        _ = W / 1000000 * 100 * (1 + (1 / 2) ^ 53) ^ 4 := by ring
    linarith
theorem not_tie_mod (a b : ℕ) (hb : 0 < b) (h : Int.fract ((a : ℚ) / b * 1000) ≠ 1 / 2) :
    (2000 * a + b) % (2 * b) ≠ 0 := by
  intro hmod
  apply h
  have hbq : (0 : ℚ) < b := by exact_mod_cast hb
  obtain ⟨m, hm⟩ := Nat.dvd_of_mod_eq_zero hmod
  have hmq : 2000 * (a : ℚ) + b = 2 * b * m := by exact_mod_cast hm
  rw [Int.fract_eq_iff]
  refine ⟨by norm_num, by norm_num, (m : ℤ) - 1, ?_⟩
  push_cast
  field_simp
  linarith

theorem text_of_exact (p : Nat) (hp : 53 ≤ p) (a b : ℕ) (hb : 0 < b) (x lo hi c : ℚ)
    (hx : 0 ≤ x) (hlo : 0 ≤ lo) (h1 : (a : ℚ) / b * lo ≤ x) (h2 : x ≤ (a : ℚ) / b * hi)
    (hc1 : 1 - c ≤ lo * (1 - (1 / 2) ^ 53)) (hc2 : hi * (1 + (1 / 2) ^ 53) ≤ 1 + c)
    (hmag : 2000 * (a : ℚ) * c < 1)
    (hnt : Int.fract ((a : ℚ) / b * 1000) ≠ 1 / 2)
    (hlt : normalize_exact ((a : ℚ) / b) < 1000) :
    denote (fmt_g6 (normalize p x)).toList = normalize_exact ((a : ℚ) / b) := by
  have hK := milli_exact p hp a b hb x lo hi c hlo h1 h2 hc1 hc2 hmag (not_tie_mod a b hb hnt)
  rw [normalize_exact_eq a b hb] at hlt ⊢
  have hK6 : (2000 * a + b) / (2 * b) < 10 ^ 6 := by
    have : (((2000 * a + b) / (2 * b) : ℕ) : ℚ) < ((10 ^ 6 : ℕ) : ℚ) := by
      push_cast; linarith
    exact_mod_cast this
  have hn := normalize_eq p x hx
  unfold milli at hK
  rw [hn, hK]
  exact fmt_g6_milli p hp _ hK6

/-- Seconds: the text of a time of `u` microseconds. -/
theorem seconds_text (p : Nat) (hp : 53 ≤ p) (u : ℕ)
    (hnt : Int.fract ((u : ℚ) / 1000000 * 1000) ≠ 1 / 2)
    (hlt : normalize_exact ((u : ℚ) / 1000000) < 1000) :
    denote (fmt_g6 (normalize p (seconds p u))).toList = normalize_exact ((u : ℚ) / 1000000) := by
  obtain ⟨h1, h2⟩ := seconds_within p hp u
  have hlt' := hlt
  have e : ((1000000 : ℕ) : ℚ) = 1000000 := by norm_num
  rw [← e] at hnt hlt hlt' ⊢
  rw [normalize_exact_eq u 1000000 (by norm_num)] at hlt'
  have hu : u < 10 ^ 9 := by
    have h3 : (((2000 * u + 1000000) / (2 * 1000000) : ℕ) : ℚ) < ((10 ^ 6 : ℕ) : ℚ) := by
      push_cast; linarith
    have h4 : (2000 * u + 1000000) / (2 * 1000000) < 10 ^ 6 := by exact_mod_cast h3
    omega
  have huq : (u : ℚ) < 10 ^ 9 := by exact_mod_cast hu
  apply text_of_exact p hp u 1000000 (by norm_num) (seconds p u)
    ((1 - (1 / 2) ^ 53) * (1 - (1 / 2) ^ 53)) ((1 + (1 / 2) ^ 53) * (1 + (1 / 2) ^ 53))
    (4 * (1 / 2) ^ 53)
    (seconds_nonneg p u) (by norm_num) (by rw [e]; exact h1) (by rw [e]; exact h2)
    (by norm_num) (by norm_num) _ hnt hlt
  have : (0 : ℚ) ≤ u := Nat.cast_nonneg u
  norm_num
  linarith

/-- CPU seconds: the text of the sum of `u` and `s` microseconds. -/
theorem cpu_seconds_text (p : Nat) (hp : 53 ≤ p) (u s : ℕ)
    (hnt : Int.fract (((u + s : ℕ) : ℚ) / 1000000 * 1000) ≠ 1 / 2)
    (hlt : normalize_exact (((u + s : ℕ) : ℚ) / 1000000) < 1000) :
    denote (fmt_g6 (normalize p (cpu_seconds p u s))).toList =
      normalize_exact (((u + s : ℕ) : ℚ) / 1000000) := by
  obtain ⟨h1, h2⟩ := cpu_seconds_within p hp u s
  have hlt' := hlt
  have e : ((1000000 : ℕ) : ℚ) = 1000000 := by norm_num
  rw [← e] at hnt hlt hlt' ⊢
  rw [normalize_exact_eq (u + s) 1000000 (by norm_num)] at hlt'
  have hu : u + s < 10 ^ 9 := by
    have h3 : (((2000 * (u + s) + 1000000) / (2 * 1000000) : ℕ) : ℚ) < ((10 ^ 6 : ℕ) : ℚ) := by
      push_cast; linarith
    have h4 : (2000 * (u + s) + 1000000) / (2 * 1000000) < 10 ^ 6 := by exact_mod_cast h3
    omega
  have huq : ((u + s : ℕ) : ℚ) < 10 ^ 9 := by exact_mod_cast hu
  apply text_of_exact p hp (u + s) 1000000 (by norm_num) (cpu_seconds p u s)
    ((1 - (1 / 2) ^ 53) * (1 - (1 / 2) ^ 53) * (1 - (1 / 2) ^ 53))
    ((1 + (1 / 2) ^ 53) * (1 + (1 / 2) ^ 53) * (1 + (1 / 2) ^ 53))
    (5 * (1 / 2) ^ 53)
    (cpu_seconds_nonneg p u s) (by norm_num) (by rw [e]; exact h1) (by rw [e]; exact h2)
    (by norm_num) (by norm_num) _ hnt hlt
  have : (0 : ℚ) ≤ ((u + s : ℕ) : ℚ) := Nat.cast_nonneg _
  norm_num at huq ⊢
  linarith

/-- CPU percentage: the text of `100 * (u + s) / e`. -/
theorem cpu_percent_text (p : Nat) (hp : 53 ≤ p) (e u s : ℕ) (he : 0 < e)
    (hus : u + s < 2 ^ 32)
    (hnt : Int.fract (((100 * (u + s) : ℕ) : ℚ) / e * 1000) ≠ 1 / 2)
    (hlt : normalize_exact (((100 * (u + s) : ℕ) : ℚ) / e) < 1000) :
    denote (fmt_g6 (normalize p (cpu_percent p e u s))).toList =
      normalize_exact (((100 * (u + s) : ℕ) : ℚ) / e) := by
  obtain ⟨h1, h2⟩ := cpu_percent_within p hp e u s he
  have huq : ((u + s : ℕ) : ℚ) < 2 ^ 32 := by exact_mod_cast hus
  apply text_of_exact p hp (100 * (u + s)) e he (cpu_percent p e u s)
    ((1 - (1 / 2) ^ 53) ^ 4 / (1 + (1 / 2) ^ 53) ^ 2 * (1 - (1 / 2) ^ 53))
    ((1 + (1 / 2) ^ 53) ^ 4 / (1 - (1 / 2) ^ 53) ^ 2 * (1 + (1 / 2) ^ 53))
    (9 * (1 / 2) ^ 53)
    (cpu_percent_nonneg p e u s) (by norm_num) h1 h2
    (by norm_num) (by norm_num) _ hnt hlt
  have : (0 : ℚ) ≤ ((u + s : ℕ) : ℚ) := Nat.cast_nonneg _
  push_cast at huq ⊢
  norm_num at huq ⊢
  linarith

/-! ## The interactive report -/

theorem interactive_text_eq (p : Nat) (o : String) (elapsed user sys mem_max : Nat)
    (he : 0 < elapsed) :
    print_result_interactive p o elapsed user sys mem_max =
      some (o ++ interactive_format
        (fmt_g6 (normalize p (cpu_seconds p user sys)))
        (fmt_g6 (normalize p (cpu_percent p elapsed user sys)))
        (fmt_g6 (normalize p (seconds p user)))
        (fmt_g6 (normalize p (seconds p sys)))
        (fmt_g6 (normalize p (seconds p elapsed)))
        (Nat.repr mem_max)) := by
  unfold print_result_interactive
  rw [if_neg (by omega)]
  simp only [put_ld, put_ull, interactive_format, cpu_seconds, cpu_percent, seconds,
    String.append_assoc]
  rfl

/-- C7, as the claim states it, fails, whether `long double` has a significand
of 53, 64 or 113 bits: with `elapsed = 1234568000` and `user = 501500`
microseconds, the elapsed time 1234.568 s is rendered `1234.57`, which denotes
1234.57 and not 1234.568, and the user time 0.5015 s, a tie that rounds away
from zero to 0.502, is rendered `0.501`. -/
theorem C7_counterexample :
    (∀ p ∈ [53, 64, 113],
      print_result_interactive p "" 1234568000 501500 0 2048 =
        some ("CPU:     0.501 s (0.041 %) \nuser:    0.501 s\nsys:     0 s\n" ++
          "elapsed: 1234.57 s\nmem_max: 2048 KB\n") ∧
      fmt_g6 (normalize p (seconds p 1234568000)) = "1234.57" ∧
      fmt_g6 (normalize p (seconds p 501500)) = "0.501") ∧
    normalize_exact (1234568000 / 1000000) = 1234568 / 1000 ∧
    denote "1234.57".toList = 123457 / 100 ∧
    denote "1234.57".toList ≠ normalize_exact (1234568000 / 1000000) ∧
    normalize_exact (501500 / 1000000) = 502 / 1000 ∧
    denote "0.501".toList = 501 / 1000 ∧
    denote "0.501".toList ≠ normalize_exact (501500 / 1000000) := by
  decide!

/-- C7 amended: for a `long double` with a significand of at least 53 bits and
`elapsed > 0`, `print_result_interactive` writes the five lines of the
interactive report, and each of the five numbers it renders whose exact value
`x` (user, sys and elapsed microseconds divided by 10^6, their sum for CPU,
`100 * CPU / elapsed` for the percentage) is such that `1000 * x` is not a tie
(not an integer plus one half) and the rounded value is below 1000, is
rendered by a text that denotes exactly `round(1000 * x) / 1000` taken over
exact rationals, a value with at most three decimal places; for the percentage
this is shown for `user + sys < 2 ^ 32` microseconds. -/
theorem C7_interactive_rounding (p : Nat) (hp : 53 ≤ p) (o : String)
    (elapsed user sys mem_max : Nat) (he : 0 < elapsed) :
    print_result_interactive p o elapsed user sys mem_max =
      some (o ++ interactive_format
        (fmt_g6 (normalize p (cpu_seconds p user sys)))
        (fmt_g6 (normalize p (cpu_percent p elapsed user sys)))
        (fmt_g6 (normalize p (seconds p user)))
        (fmt_g6 (normalize p (seconds p sys)))
        (fmt_g6 (normalize p (seconds p elapsed)))
        (Nat.repr mem_max)) ∧
    (∀ v ∈ [user, sys, elapsed],
      Int.fract (1000 * ((v : ℚ) / 1000000)) ≠ 1 / 2 →
      normalize_exact ((v : ℚ) / 1000000) < 1000 →
      denote (fmt_g6 (normalize p (seconds p v))).toList =
        normalize_exact ((v : ℚ) / 1000000)) ∧
    (Int.fract (1000 * ((user : ℚ) / 1000000 + (sys : ℚ) / 1000000)) ≠ 1 / 2 →
      normalize_exact ((user : ℚ) / 1000000 + (sys : ℚ) / 1000000) < 1000 →
      denote (fmt_g6 (normalize p (cpu_seconds p user sys))).toList =
        normalize_exact ((user : ℚ) / 1000000 + (sys : ℚ) / 1000000)) ∧
    (user + sys < 2 ^ 32 →
      Int.fract (1000 * (100 * ((user : ℚ) / 1000000 + (sys : ℚ) / 1000000) /
        ((elapsed : ℚ) / 1000000))) ≠ 1 / 2 →
      normalize_exact (100 * ((user : ℚ) / 1000000 + (sys : ℚ) / 1000000) /
        ((elapsed : ℚ) / 1000000)) < 1000 →
      denote (fmt_g6 (normalize p (cpu_percent p elapsed user sys))).toList =
        normalize_exact (100 * ((user : ℚ) / 1000000 + (sys : ℚ) / 1000000) /
          ((elapsed : ℚ) / 1000000))) := by
  have heq : (0 : ℚ) < elapsed := by exact_mod_cast he
  have hcpu : (user : ℚ) / 1000000 + (sys : ℚ) / 1000000 = ((user + sys : ℕ) : ℚ) / 1000000 := by
    push_cast; ring
  have hper : 100 * ((user : ℚ) / 1000000 + (sys : ℚ) / 1000000) / ((elapsed : ℚ) / 1000000) =
      ((100 * (user + sys) : ℕ) : ℚ) / elapsed := by
    push_cast; field_simp
  refine ⟨interactive_text_eq p o elapsed user sys mem_max he, ?_, ?_, ?_⟩
  · intro v _ hnt hlt
    rw [mul_comm] at hnt
    exact seconds_text p hp v hnt hlt
  · intro hnt hlt
    rw [hcpu] at hnt hlt ⊢
    rw [mul_comm] at hnt
    exact cpu_seconds_text p hp user sys hnt hlt
  · intro hus hnt hlt
    rw [hper] at hnt hlt ⊢
    rw [mul_comm] at hnt
    exact cpu_percent_text p hp elapsed user sys he hus hnt hlt

/-- C7 amended at a concrete run on x86-64 (`p = 64`): an elapsed time of
1.23456 s is rendered `1.235`. -/
theorem C7_interactive_rounding_witness :
    print_result_interactive 64 "" 1234560 800000 200000 2048 =
      some ("CPU:     1 s (81.001 %) \nuser:    0.8 s\nsys:     0.2 s\n" ++
        "elapsed: 1.235 s\nmem_max: 2048 KB\n") ∧
    denote (fmt_g6 (normalize 64 (seconds 64 1234560))).toList = 1235 / 1000 := by
  have h := C7_interactive_rounding 64 (by decide) "" 1234560 800000 200000 2048 (by decide)
  refine ⟨by decide!, ?_⟩
  have h2 := h.2.1 1234560 (by simp) (by decide!) (by decide!)
  rw [h2]
  decide!

end Timer
